import Mathlib

/-!
Verification of the registration-link pipeline of `onix-v2-register`
(`lib/url-parser.ts`): structural URL parsing, data-parameter decoding
(percent → base64 → JSON), context-aware key normalization
(`transformDataKeys`), and per-flow schema validation.

The embedding models JavaScript values with an inductive `Json` type that
includes `undef` (JavaScript `undefined`), since the normalizer's
null-to-undefined conversion is observable (`key in obj` distinguishes a
key bound to `undefined` from an absent key).  JavaScript objects are
modelled as insertion-ordered association lists with unique keys;
property assignment (`setKey`) updates in place or appends, matching JS
semantics for non-integer keys.  Strings are Lean strings (sequences of
Unicode scalar values); `String.toLower`-style case mapping is modelled
ASCII-only, and JSON numbers are modelled as integers (the payloads'
numeric fields are integral), both documented simplifications of the
JavaScript runtime.
-/

namespace OnixRegister

/-- A JavaScript value as seen by the pipeline: JSON values plus
`undefined`, which `JSON.parse` never produces but `transformDataKeys`
introduces when converting `null` for optional fields. -/
inductive Json where
  | undef : Json
  | null : Json
  | bool (b : Bool) : Json
  | num (n : Int) : Json
  | str (s : String) : Json
  | arr (elems : List Json) : Json
  | obj (fields : List (String × Json)) : Json
deriving Repr

mutual

/-- Decidable equality for `Json` (the derive handler does not support
nested inductives). -/
def decEqJson : (a b : Json) → Decidable (a = b)
  | .undef, .undef => .isTrue rfl
  | .null, .null => .isTrue rfl
  | .bool x, .bool y =>
    match decEq x y with
    | .isTrue h => .isTrue (by rw [h])
    | .isFalse h => .isFalse (fun e => h (Json.bool.inj e))
  | .num x, .num y =>
    match decEq x y with
    | .isTrue h => .isTrue (by rw [h])
    | .isFalse h => .isFalse (fun e => h (Json.num.inj e))
  | .str x, .str y =>
    match decEq x y with
    | .isTrue h => .isTrue (by rw [h])
    | .isFalse h => .isFalse (fun e => h (Json.str.inj e))
  | .arr xs, .arr ys =>
    match decEqJsonList xs ys with
    | .isTrue h => .isTrue (by rw [h])
    | .isFalse h => .isFalse (fun e => h (Json.arr.inj e))
  | .obj xs, .obj ys =>
    match decEqJsonFields xs ys with
    | .isTrue h => .isTrue (by rw [h])
    | .isFalse h => .isFalse (fun e => h (Json.obj.inj e))
  | .undef, .null | .undef, .bool _ | .undef, .num _ | .undef, .str _
  | .undef, .arr _ | .undef, .obj _ => .isFalse (fun h => Json.noConfusion h)
  | .null, .undef | .null, .bool _ | .null, .num _ | .null, .str _
  | .null, .arr _ | .null, .obj _ => .isFalse (fun h => Json.noConfusion h)
  | .bool _, .undef | .bool _, .null | .bool _, .num _ | .bool _, .str _
  | .bool _, .arr _ | .bool _, .obj _ => .isFalse (fun h => Json.noConfusion h)
  | .num _, .undef | .num _, .null | .num _, .bool _ | .num _, .str _
  | .num _, .arr _ | .num _, .obj _ => .isFalse (fun h => Json.noConfusion h)
  | .str _, .undef | .str _, .null | .str _, .bool _ | .str _, .num _
  | .str _, .arr _ | .str _, .obj _ => .isFalse (fun h => Json.noConfusion h)
  | .arr _, .undef | .arr _, .null | .arr _, .bool _ | .arr _, .num _
  | .arr _, .str _ | .arr _, .obj _ => .isFalse (fun h => Json.noConfusion h)
  | .obj _, .undef | .obj _, .null | .obj _, .bool _ | .obj _, .num _
  | .obj _, .str _ | .obj _, .arr _ => .isFalse (fun h => Json.noConfusion h)

/-- Decidable equality for `List Json`. -/
def decEqJsonList : (a b : List Json) → Decidable (a = b)
  | [], [] => .isTrue rfl
  | [], _ :: _ => .isFalse (fun h => List.noConfusion h)
  | _ :: _, [] => .isFalse (fun h => List.noConfusion h)
  | x :: xs, y :: ys =>
    match decEqJson x y with
    | .isFalse h => .isFalse (fun e => h (List.cons.inj e).1)
    | .isTrue h1 =>
      match decEqJsonList xs ys with
      | .isTrue h2 => .isTrue (by rw [h1, h2])
      | .isFalse h2 => .isFalse (fun e => h2 (List.cons.inj e).2)

/-- Decidable equality for `List (String × Json)`. -/
def decEqJsonFields : (a b : List (String × Json)) → Decidable (a = b)
  | [], [] => .isTrue rfl
  | [], _ :: _ => .isFalse (fun h => List.noConfusion h)
  | _ :: _, [] => .isFalse (fun h => List.noConfusion h)
  | (k1, v1) :: xs, (k2, v2) :: ys =>
    match decEq k1 k2 with
    | .isFalse h => .isFalse (fun e => h (congrArg Prod.fst (List.cons.inj e).1))
    | .isTrue hk =>
      match decEqJson v1 v2 with
      | .isFalse h => .isFalse (fun e => h (congrArg Prod.snd (List.cons.inj e).1))
      | .isTrue hv =>
        match decEqJsonFields xs ys with
        | .isTrue h2 => .isTrue (by rw [hk, hv, h2])
        | .isFalse h2 => .isFalse (fun e => h2 (List.cons.inj e).2)

end

instance : DecidableEq Json := decEqJson

/-- An object's fields: insertion-ordered association list. -/
abbrev JsFields := List (String × Json)

/-- Value of a property (first occurrence), `none` when absent. -/
def getKey : JsFields → String → Option Json
  | [], _ => none
  | (k, v) :: rest, key => if k = key then some v else getKey rest key

/-- `key in obj`: present even when the stored value is `undefined`. -/
def hasKey (fs : JsFields) (key : String) : Bool := (getKey fs key).isSome

/-- Property access `obj[key]`: `undefined` when the key is absent. -/
def getProp (fs : JsFields) (key : String) : Json := (getKey fs key).getD (.undef)

/-- Property assignment `obj[key] = v`: update in place, else append. -/
def setKey : JsFields → String → Json → JsFields
  | [], key, v => [(key, v)]
  | (k, w) :: rest, key, v =>
    if k = key then (k, v) :: rest else (k, w) :: setKey rest key v

/-- JavaScript truthiness: `undefined`, `null`, `false`, `0` and `""` are
falsy; every object and array (even empty) is truthy. -/
def truthy : Json → Bool
  | .undef => false
  | .null => false
  | .bool b => b
  | .num n => n != 0
  | .str s => s != ""
  | .arr _ => true
  | .obj _ => true

/-- `value === null ? undefined : value`. -/
def nullToUndef (v : Json) : Json := if v = .null then .undef else v

/-- The four registration flow types (closed enumeration). -/
inductive RegistrationType where
  | userInviteConfirm
  | userSignupConfirm
  | customerEmailVerification
  | forgotPassword
deriving DecidableEq, Repr

/-- The literal path segment naming each flow type. -/
def RegistrationType.toSlug : RegistrationType → String
  | .userInviteConfirm => "user-invite-confirm"
  | .userSignupConfirm => "user-signup-confirm"
  | .customerEmailVerification => "customer-email-verification"
  | .forgotPassword => "forgot-password"

/-- `REGISTRATION_TYPES`, in source order. -/
def REGISTRATION_TYPES : List RegistrationType :=
  [.userInviteConfirm, .userSignupConfirm, .customerEmailVerification, .forgotPassword]

/-- Recover the flow type from its path segment (the typed counterpart of
`isValidRegistrationType`, which narrows the string in the source). -/
def parseRegistrationType (s : String) : Option RegistrationType :=
  (REGISTRATION_TYPES.filter (fun t => t.toSlug = s)).head?

/-- `isValidRegistrationType`: membership in the closed enumeration. -/
def isValidRegistrationType (s : String) : Bool :=
  (parseRegistrationType s).isSome

/-- `keyMappings` of `transformDataKeys`: external spelling → internal
key, in source order (`Object.entries` iterates string keys in insertion
order). -/
def keyMappings : List (String × String) :=
  [("Name", "name"), ("name", "name"),
   ("Email", "email"), ("email", "email"),
   ("Code", "code"), ("code", "code"),
   ("UserName", "username"), ("Username", "username"), ("username", "username"),
   ("FirstName", "firstName"), ("firstName", "firstName"),
   ("LastName", "lastName"), ("Lastname", "lastName"), ("lastName", "lastName"),
   ("Password", "password"), ("password", "password"),
   ("OrgUserId", "orgUserId"), ("orgUserId", "orgUserId"),
   ("InvitedBy", "invitedBy"), ("invitedBy", "invitedBy")]

/-- Is a string a key of `keyMappings` (`key in keyMappings`)? -/
def inKeyMappings (key : String) : Bool := keyMappings.any (fun p => p.1 = key)

/-- `key.charAt(0).toLowerCase() + key.slice(1)` (ASCII case model). -/
def lowerFirst (s : String) : String :=
  match s.data with
  | [] => ""
  | c :: rest => String.mk (c.toLower :: rest)

/-- Keys the unknown-key loop of `transformDataKeys` skips. -/
def unknownKeyEligible (key : String) : Bool :=
  !(inKeyMappings key) && key != "Id" && key != "id" && key != "customerId"

/-- The body of `transformDataKeys` for an object input: the `Id`/`id`
context-aware branch, the explicit-`customerId` copy, the known-key
mapping loop, then the unknown-key camel-casing loop, in source order. -/
def transformObj (data : JsFields) (registrationType : Option RegistrationType) : JsFields :=
  let t1 : JsFields :=
    if hasKey data "Id" || hasKey data "id" then
      let idValue := if truthy (getProp data "Id") then getProp data "Id" else getProp data "id"
      match registrationType with
      | some .customerEmailVerification => setKey [] "customerId" idValue
      | some .userSignupConfirm => setKey [] "orgUserId" idValue
      | some .userInviteConfirm => setKey [] "orgUserId" idValue
      | _ => setKey [] "customerId" idValue
    else []
  let t2 : JsFields :=
    if hasKey data "customerId" && !(truthy (getProp t1 "customerId")) then
      setKey t1 "customerId" (getProp data "customerId")
    else t1
  let t3 : JsFields :=
    keyMappings.foldl
      (fun acc p =>
        if hasKey data p.1 then setKey acc p.2 (nullToUndef (getProp data p.1)) else acc)
      t2
  data.foldl
    (fun acc p =>
      if unknownKeyEligible p.1 then
        setKey acc (lowerFirst p.1) (nullToUndef (getProp data p.1))
      else acc)
    t3

/-- An array input has `typeof data === 'object'`, so `transformDataKeys`
processes it: no `Id`/`customerId`/known keys match, and the `for..in`
loop copies the index properties, turning the array into a plain object
with stringified index keys. -/
def transformArr (elems : List Json) : JsFields :=
  (elems.enum.map (fun p => (toString p.1, nullToUndef p.2)))

/-- `transformDataKeys(data, registrationType)`: non-objects (falsy
values and non-`object` typeof) are returned unchanged; arrays and plain
objects are rebuilt with normalized keys. -/
def transformDataKeys (data : Json) (registrationType : Option RegistrationType) : Json :=
  match data with
  | .obj fs => .obj (transformObj fs registrationType)
  | .arr elems => .obj (transformArr elems)
  | other => other

/-! ### List-based string splitting

`String.splitOn` and `String.trim` are implemented with position-based
iteration that the kernel cannot evaluate, so the embedding uses these
structurally recursive equivalents throughout. -/

/-- If `sep` is a prefix of `cs`, the remainder after it. -/
def dropSeq : List Char → List Char → Option (List Char)
  | [], cs => some cs
  | _ :: _, [] => none
  | s :: ss, c :: cc => if c = s then dropSeq ss cc else none

/-- Fuelled splitter on a non-empty separator sequence. -/
def splitOnCharsAux (sep : List Char) : Nat → List Char → List Char → List (List Char)
  | _, [], acc => [acc.reverse]
  | 0, c :: cs, acc => [acc.reverse ++ c :: cs]
  | fuel + 1, c :: cs, acc =>
    match dropSeq sep (c :: cs) with
    | some rest => acc.reverse :: splitOnCharsAux sep fuel rest []
    | none => splitOnCharsAux sep fuel cs (c :: acc)

/-- `String.splitOn` model: split on every occurrence of `sep`. -/
def splitOnStr (sep : String) (s : String) : List String :=
  match sep.data with
  | [] => [s]
  | c :: cc => (splitOnCharsAux (c :: cc) s.data.length s.data []).map String.mk

/-- Whitespace trimmed by `.trim()`. -/
def isTrimWs (c : Char) : Bool :=
  c = ' ' || c.toNat = 9 || c.toNat = 10 || c.toNat = 11 || c.toNat = 12 || c.toNat = 13

/-- `String.trim` model. -/
def strTrim (s : String) : String :=
  String.mk (((s.data.dropWhile isTrimWs).reverse.dropWhile isTrimWs).reverse)

/-- Hexadecimal digit test (for the UUID regex model). -/
def isHexDigit (c : Char) : Bool :=
  (Char.ofNat 48 ≤ c && c ≤ Char.ofNat 57) ||
  (Char.ofNat 97 ≤ c && c ≤ Char.ofNat 102) ||
  (Char.ofNat 65 ≤ c && c ≤ Char.ofNat 70)

/-- `isValidUUID`: the source's UUID-v4 regex
`^[0-9a-f]\x7b8\x7d-[0-9a-f]\x7b4\x7d-4[0-9a-f]\x7b3\x7d-[89ab][0-9a-f]\x7b3\x7d-[0-9a-f]\x7b12\x7d$`
with the `i` flag. -/
def isValidUUID (token : String) : Bool :=
  match splitOnStr "-" token with
  | [g1, g2, g3, g4, g5] =>
    g1.length = 8 && g2.length = 4 && g3.length = 4 && g4.length = 4 && g5.length = 12 &&
    (g1.data ++ g2.data ++ g3.data ++ g4.data ++ g5.data).all isHexDigit &&
    (match g3.data with
     | c :: _ => c = '4'
     | [] => false) &&
    (match g4.data with
     | c :: _ => c = '8' || c = '9' || c = 'a' || c = 'b' || c = 'A' || c = 'B'
     | [] => false)
  | _ => false

/-- A character allowed in an organization name (`[a-z0-9_-]` with `i`). -/
def isOrgChar (c : Char) : Bool :=
  (Char.ofNat 97 ≤ c && c ≤ Char.ofNat 122) ||
  (Char.ofNat 65 ≤ c && c ≤ Char.ofNat 90) ||
  (Char.ofNat 48 ≤ c && c ≤ Char.ofNat 57) ||
  c = '_' || c = '-'

/-- `isValidOrganization`: charset plus length 2–50. -/
def isValidOrganization (org : String) : Bool :=
  org.data ≠ [] && org.data.all isOrgChar && 2 ≤ org.length && org.length ≤ 50

/-- `ParseError.code`: the closed error taxonomy. -/
inductive ErrorCode where
  | INVALID_URL
  | INVALID_TOKEN
  | INVALID_DATA
  | MISSING_PARAM
  | DECODE_ERROR
  | VALIDATION_ERROR
deriving DecidableEq, Repr

/-- One Zod issue, reduced to the `\x7bpath, message\x7d` projection the
pipeline reports. -/
structure ZodIssue where
  path : List String
  message : String
deriving DecidableEq, Repr

/-- `ParseError.details`: either a low-level cause string (decode
failures) or the list of validation issues. -/
inductive ErrorDetails where
  | text (s : String)
  | issues (list : List ZodIssue)
deriving DecidableEq, Repr

/-- A `ParseError` value. -/
structure ParseError where
  code : ErrorCode
  message : String
  details : Option ErrorDetails := none
deriving DecidableEq, Repr

/-- `ParseResult<T>`: the success/failure envelope every stage returns. -/
inductive ParseResult (α : Type) where
  | success (data : α) : ParseResult α
  | failure (error : ParseError) : ParseResult α
deriving DecidableEq, Repr

/-- Zod's name for a value's parsed type (the `received` of an
`invalid_type` issue). -/
def typeName : Json → String
  | .undef => "undefined"
  | .null => "null"
  | .bool _ => "boolean"
  | .num _ => "number"
  | .str _ => "string"
  | .arr _ => "array"
  | .obj _ => "object"

/-- Model of Zod's `email()` format test (the source declares
`z.string().email('Invalid email address')`; the library regex is
modelled by this simpler predicate with the same shape: one `@`,
non-empty halves, dotted domain, no spaces). -/
def isEmailShaped (s : String) : Bool :=
  match splitOnStr "@" s with
  | [l, d] =>
    l ≠ "" && d ≠ "" && !l.data.contains ' ' && !d.data.contains ' ' &&
    d.data.contains '.' && d.data.head? != some '.' && d.data.getLast? != some '.'
  | _ => false

/-- Model of Zod's `uuid()` format test: five hyphen-separated hex
groups of lengths 8-4-4-4-12, case-insensitive (any version). -/
def isZodUuid (s : String) : Bool :=
  match splitOnStr "-" s with
  | [g1, g2, g3, g4, g5] =>
    g1.length = 8 && g2.length = 4 && g3.length = 4 && g4.length = 4 && g5.length = 12 &&
    (g1.data ++ g2.data ++ g3.data ++ g4.data ++ g5.data).all isHexDigit
  | _ => false

/-- One chained check on a `z.string()`. -/
inductive StrCheck where
  | minLen (n : Nat) (msg : String)
  | maxLen (n : Nat) (msg : String)
  | email (msg : String)
  | uuid (msg : String)
deriving DecidableEq, Repr

/-- Run one string check, returning its failure messages. -/
def runStrCheck (s : String) : StrCheck → List String
  | .minLen n msg => if s.length < n then [msg] else []
  | .maxLen n msg => if n < s.length then [msg] else []
  | .email msg => if isEmailShaped s then [] else [msg]
  | .uuid msg => if isZodUuid s then [] else [msg]

/-- One field of a `z.object` schema: a `z.string()` with optional
`.trim()`, optional `.optional()`, and its chained checks. -/
structure FieldSpec where
  key : String
  optional : Bool
  trimmed : Bool
  checks : List StrCheck
deriving DecidableEq, Repr

/-- Validate one field of an object: Zod's `invalid_type` issues
(`Required` when the value is `undefined`), else all failing chained
checks in order, plus the field's parsed output value. -/
def runField (fs : JsFields) (f : FieldSpec) : List ZodIssue × Option (String × Json) :=
  match getProp fs f.key with
  | .undef =>
    if f.optional then ([], none) else ([⟨[f.key], "Required"⟩], none)
  | .str s =>
    let s1 := if f.trimmed then strTrim s else s
    ((f.checks.flatMap (runStrCheck s1)).map (fun m => ⟨[f.key], m⟩), some (f.key, .str s1))
  | other => ([⟨[f.key], "Expected string, received " ++ typeName other⟩], none)

/-- Model of `schema.parse` for the source's `z.object` schemas: a
non-object input yields a single root `invalid_type` issue; otherwise
every field is checked and all issues are collected in schema-shape
order (Zod does not short-circuit); on success the output keeps only the
schema's fields (Zod strips unknown keys). -/
def zodParse (spec : List FieldSpec) (data : Json) : Except (List ZodIssue) Json :=
  match data with
  | .obj fs =>
    let results := spec.map (runField fs)
    let issues := results.flatMap (fun r => r.1)
    if issues.isEmpty then .ok (.obj (results.filterMap (fun r => r.2))) else .error issues
  | .undef => .error [⟨[], "Required"⟩]
  | other => .error [⟨[], "Expected object, received " ++ typeName other⟩]

/-- `UserInviteDataSchema`. -/
def UserInviteDataSchema : List FieldSpec :=
  [⟨"username", false, false, [.minLen 1 "Username is required"]⟩,
   ⟨"email", false, false, [.email "Invalid email address"]⟩,
   ⟨"orgUserId", true, false, [.uuid "Organization User ID must be a valid UUID"]⟩,
   ⟨"invitedBy", false, true,
     [.minLen 1 "Invited By is required", .maxLen 100 "Invited By must not exceed 100 characters"]⟩]

/-- `UserSignupDataSchema`. -/
def UserSignupDataSchema : List FieldSpec :=
  [⟨"username", true, false, [.minLen 1 "Username is required"]⟩,
   ⟨"email", false, false, [.email "Invalid email address"]⟩,
   ⟨"firstName", true, false, []⟩,
   ⟨"lastName", true, false, []⟩,
   ⟨"orgUserId", true, false, [.uuid "Organization User ID must be a valid UUID"]⟩]

/-- `CustomerVerificationDataSchema`. -/
def CustomerVerificationDataSchema : List FieldSpec :=
  [⟨"customerId", false, false, [.minLen 1 "Customer ID is required"]⟩,
   ⟨"name", false, false,
     [.minLen 1 "Name is required", .maxLen 255 "Name must not exceed 255 characters"]⟩,
   ⟨"email", false, false, [.email "Invalid email address"]⟩]

/-- `ForgotPasswordDataSchema`. -/
def ForgotPasswordDataSchema : List FieldSpec :=
  [⟨"username", false, false, [.minLen 1 "Username is required"]⟩,
   ⟨"email", false, false, [.email "Invalid email address"]⟩]

/-- The schema `validateData` selects for a flow type. -/
def schemaFor : RegistrationType → List FieldSpec
  | .userInviteConfirm => UserInviteDataSchema
  | .userSignupConfirm => UserSignupDataSchema
  | .customerEmailVerification => CustomerVerificationDataSchema
  | .forgotPassword => ForgotPasswordDataSchema

/-- The issues the selected schema produces on `data` (empty iff the
payload validates). -/
def zodIssuesFor (registrationType : RegistrationType) (data : Json) : List ZodIssue :=
  match zodParse (schemaFor registrationType) data with
  | .ok _ => []
  | .error issues => issues

/-- `err.path.join('.') + ': ' + err.message`. -/
def formatIssue (i : ZodIssue) : String :=
  String.intercalate "." i.path ++ ": " ++ i.message

/-- `validateData(registrationType, data)`: dispatch on the flow type,
run the schema, and either return the typed payload or aggregate every
issue into one `VALIDATION_ERROR`. -/
def validateData (registrationType : RegistrationType) (data : Json) : ParseResult Json :=
  match zodParse (schemaFor registrationType) data with
  | .ok validated => .success validated
  | .error issues =>
    .failure
      { code := .VALIDATION_ERROR,
        message := "Data validation failed: " ++ String.intercalate ", " (issues.map formatIssue),
        details := some (.issues issues) }

/-! ### Byte and text codecs

Models of the runtime primitives the source calls:
`encodeURIComponent`/`decodeURIComponent`, base64 (`btoa`/`atob` strict
alphabet), and UTF-8 between strings and bytes (`Buffer.from` /
`toString('utf-8')`).  Bytes are `Nat`s below 256. -/

/-- Numeric value of a hexadecimal digit character. -/
def hexDigitVal (c : Char) : Option Nat :=
  if 48 ≤ c.toNat && c.toNat ≤ 57 then some (c.toNat - 48)
  else if 97 ≤ c.toNat && c.toNat ≤ 102 then some (c.toNat - 87)
  else if 65 ≤ c.toNat && c.toNat ≤ 70 then some (c.toNat - 55)
  else none

/-- Uppercase hexadecimal digit (percent-escapes use uppercase). -/
def upperHexChar (n : Nat) : Char :=
  if n < 10 then Char.ofNat (48 + n) else Char.ofNat (55 + n)

/-- Lowercase hexadecimal digit (JSON `\u` escapes use lowercase). -/
def lowerHexChar (n : Nat) : Char :=
  if n < 10 then Char.ofNat (48 + n) else Char.ofNat (87 + n)

/-- UTF-8 encoding of one Unicode scalar value (1–4 bytes). -/
def utf8EncodeChar (c : Char) : List Nat :=
  let n := c.toNat
  if n < 128 then [n]
  else if n < 2048 then [192 + n / 64, 128 + n % 64]
  else if n < 65536 then [224 + n / 4096, 128 + n / 64 % 64, 128 + n % 64]
  else [240 + n / 262144, 128 + n / 4096 % 64, 128 + n / 64 % 64, 128 + n % 64]

/-- UTF-8 encoding of a character sequence. -/
def utf8EncodeList (cs : List Char) : List Nat := cs.flatMap utf8EncodeChar

/-- Is a byte a UTF-8 continuation byte? -/
def isContByte (b : Nat) : Bool := 128 ≤ b && b < 192

/-- Strict UTF-8 decoding of one scalar value from the head of a byte
sequence (rejecting overlong forms, surrogates, and out-of-range
values). -/
def utf8DecodeChar : List Nat → Option (Char × List Nat)
  | [] => none
  | b :: rest =>
    if b < 128 then some (Char.ofNat b, rest)
    else if b < 194 then none
    else if b < 224 then
      match rest with
      | b2 :: r =>
        if isContByte b2 then some (Char.ofNat ((b - 192) * 64 + (b2 - 128)), r) else none
      | [] => none
    else if b < 240 then
      match rest with
      | b2 :: b3 :: r =>
        if isContByte b2 && isContByte b3 then
          let n := (b - 224) * 4096 + (b2 - 128) * 64 + (b3 - 128)
          if 2048 ≤ n && (n < 55296 || 57344 ≤ n) then some (Char.ofNat n, r) else none
        else none
      | _ => none
    else if b < 245 then
      match rest with
      | b2 :: b3 :: b4 :: r =>
        if isContByte b2 && isContByte b3 && isContByte b4 then
          let n := (b - 240) * 262144 + (b2 - 128) * 4096 + (b3 - 128) * 64 + (b4 - 128)
          if 65536 ≤ n && n < 1114112 then some (Char.ofNat n, r) else none
        else none
      | _ => none
    else none

/-- Fuelled strict UTF-8 decoding of a whole byte sequence. -/
def utf8DecodeAux : Nat → List Nat → Option (List Char)
  | _, [] => some []
  | 0, _ :: _ => none
  | fuel + 1, bs =>
    match utf8DecodeChar bs with
    | none => none
    | some (c, rest) => (utf8DecodeAux fuel rest).map (fun t => c :: t)

/-- Strict UTF-8 decoding (each step consumes at least one byte, so the
input length is enough fuel). -/
def utf8Decode (bs : List Nat) : Option (List Char) := utf8DecodeAux bs.length bs

/-- The base64 alphabet in index order. -/
def base64Alphabet : List Char :=
  "ABCDEFGHIJKLMNOPQRSTUVWXYZabcdefghijklmnopqrstuvwxyz0123456789+/".data

/-- The base64 digit for a 6-bit value. -/
def b64Char (n : Nat) : Char := base64Alphabet.getD n 'A'

/-- Position of a character in a list (for the base64 reverse map). -/
def charIndexIn : List Char → Char → Option Nat
  | [], _ => none
  | x :: xs, c => if x = c then some 0 else (charIndexIn xs c).map (fun n => n + 1)

/-- 6-bit value of a base64 digit. -/
def b64Index (c : Char) : Option Nat := charIndexIn base64Alphabet c

/-- Base64 encoding of a byte sequence, with `=` padding. -/
def base64EncodeBytes : List Nat → List Char
  | [] => []
  | [b1] => [b64Char (b1 / 4), b64Char (b1 % 4 * 16), '=', '=']
  | [b1, b2] => [b64Char (b1 / 4), b64Char (b1 % 4 * 16 + b2 / 16), b64Char (b2 % 16 * 4), '=']
  | b1 :: b2 :: b3 :: rest =>
    b64Char (b1 / 4) :: b64Char (b1 % 4 * 16 + b2 / 16) :: b64Char (b2 % 16 * 4 + b3 / 64) ::
      b64Char (b3 % 64) :: base64EncodeBytes rest

/-- Drop up to two trailing `=` padding characters (reversed input). -/
def dropPadRev : List Char → List Char
  | [] => []
  | [c] => if c = '=' then [] else [c]
  | c1 :: c2 :: r =>
    if c1 = '=' then (if c2 = '=' then r else c2 :: r) else c1 :: c2 :: r

/-- Remove base64 padding. -/
def stripPad (cs : List Char) : List Char := (dropPadRev cs.reverse).reverse

/-- Decode unpadded base64 in 4-digit groups (a final group of 2 or 3
digits carries 1 or 2 bytes; a leftover single digit is invalid). -/
def base64DecodeCore : List Char → Option (List Nat)
  | [] => some []
  | [_] => none
  | [c1, c2] =>
    match b64Index c1, b64Index c2 with
    | some v1, some v2 => some [v1 * 4 + v2 / 16]
    | _, _ => none
  | [c1, c2, c3] =>
    match b64Index c1, b64Index c2, b64Index c3 with
    | some v1, some v2, some v3 => some [v1 * 4 + v2 / 16, v2 % 16 * 16 + v3 / 4]
    | _, _, _ => none
  | c1 :: c2 :: c3 :: c4 :: rest =>
    match b64Index c1, b64Index c2, b64Index c3, b64Index c4 with
    | some v1, some v2, some v3, some v4 =>
      (base64DecodeCore rest).map
        (fun t => (v1 * 4 + v2 / 16) :: (v2 % 16 * 16 + v3 / 4) :: (v3 % 4 * 64 + v4) :: t)
    | _, _, _, _ => none

/-- Strict base64 decoding (the `atob` model: invalid characters and a
leftover single digit fail). -/
def base64Decode (cs : List Char) : Option (List Nat) := base64DecodeCore (stripPad cs)

/-- A character `encodeURIComponent` leaves unescaped:
alphanumerics and `- _ . ! ~ * ( )` and the apostrophe. -/
def isUriUnreserved (c : Char) : Bool :=
  (97 ≤ c.toNat && c.toNat ≤ 122) || (65 ≤ c.toNat && c.toNat ≤ 90) ||
  (48 ≤ c.toNat && c.toNat ≤ 57) ||
  c = '-' || c = '_' || c = '.' || c = '!' || c = '~' || c = '*' ||
  c = Char.ofNat 39 || c = '(' || c = ')'

/-- `encodeURIComponent` on one character: unreserved characters pass
through, everything else becomes `%XX` escapes of its UTF-8 bytes. -/
def percentEncodeChar (c : Char) : List Char :=
  if isUriUnreserved c then [c]
  else (utf8EncodeChar c).flatMap (fun b => ['%', upperHexChar (b / 16), upperHexChar (b % 16)])

/-- `encodeURIComponent` model. -/
def percentEncodeList (cs : List Char) : List Char := cs.flatMap percentEncodeChar

/-- Read one `%XX` escape from the head of the input. -/
def readEscByte : List Char → Option (Nat × List Char)
  | '%' :: h1 :: h2 :: r =>
    match hexDigitVal h1, hexDigitVal h2 with
    | some v1, some v2 => some (v1 * 16 + v2, r)
    | _, _ => none
  | _ => none

/-- Read `n` consecutive `%XX` escapes. -/
def readEscBytes : Nat → List Char → Option (List Nat × List Char)
  | 0, cs => some ([], cs)
  | n + 1, cs =>
    match readEscByte cs with
    | none => none
    | some (b, r) => (readEscBytes n r).map (fun p => (b :: p.1, p.2))

/-- Fuelled `decodeURIComponent` model: literal characters pass through;
a `%` escape is one byte, and a lead byte above 127 must be followed by
enough continuation escapes to form one valid UTF-8 character. -/
def percentDecodeAux : Nat → List Char → Option (List Char)
  | _, [] => some []
  | 0, _ :: _ => none
  | fuel + 1, c :: cs =>
    if c = '%' then
      match readEscByte (c :: cs) with
      | none => none
      | some (b, r1) =>
        if b < 128 then (percentDecodeAux fuel r1).map (fun t => Char.ofNat b :: t)
        else
          let extra := if b < 224 then 1 else if b < 240 then 2 else 3
          match readEscBytes extra r1 with
          | none => none
          | some (bs, r2) =>
            match utf8DecodeChar (b :: bs) with
            | some (ch, []) => (percentDecodeAux fuel r2).map (fun t => ch :: t)
            | _ => none
    else (percentDecodeAux fuel cs).map (fun t => c :: t)

/-- `decodeURIComponent` model (each step consumes at least one input
character, so the input length is enough fuel). -/
def percentDecodeList (cs : List Char) : Option (List Char) := percentDecodeAux cs.length cs

/-! ### The JSON codec: `JSON.stringify` and `JSON.parse` models

`JSON.stringify` output for the `Json` model: no whitespace, strings
with the standard escapes (`\u00xx` for bare control characters),
numbers as signed decimal integers.  An `undefined` object field is
omitted (as `JSON.stringify` does); an `undefined` array element renders
as `null`, which is also how `JSON.stringify` treats it. -/

/-- JSON string escaping of one character. -/
def escapeCharJson (c : Char) : List Char :=
  if c = '"' then ['\\', '"']
  else if c = '\\' then ['\\', '\\']
  else if c = Char.ofNat 8 then ['\\', 'b']
  else if c = Char.ofNat 9 then ['\\', 't']
  else if c = Char.ofNat 10 then ['\\', 'n']
  else if c = Char.ofNat 12 then ['\\', 'f']
  else if c = Char.ofNat 13 then ['\\', 'r']
  else if c.toNat < 32 then
    ['\\', 'u', '0', '0', lowerHexChar (c.toNat / 16), lowerHexChar (c.toNat % 16)]
  else [c]

/-- A rendered JSON string literal, quotes included. -/
def renderStr (s : String) : List Char :=
  '"' :: (s.data.flatMap escapeCharJson ++ ['"'])

/-- Decimal digit characters of a natural number, no leading zeros. -/
def natDigits (n : Nat) : List Char :=
  if n < 10 then [Char.ofNat (48 + n)]
  else natDigits (n / 10) ++ [Char.ofNat (48 + n % 10)]
termination_by n
decreasing_by omega

/-- Characters of a signed decimal integer. -/
def intChars (i : Int) : List Char :=
  if i < 0 then '-' :: natDigits i.natAbs else natDigits i.natAbs

/-- Join rendered pieces with commas. -/
def joinComma : List (List Char) → List Char
  | [] => []
  | [x] => x
  | x :: y :: r => x ++ ',' :: joinComma (y :: r)

mutual

/-- Render a `Json` value as `JSON.stringify` would. -/
def renderJson : Json → List Char
  | .undef => "null".data
  | .null => "null".data
  | .bool true => "true".data
  | .bool false => "false".data
  | .num n => intChars n
  | .str s => renderStr s
  | .arr es => '[' :: (joinComma (renderElemsL es) ++ [']'])
  | .obj fs => '{' :: (joinComma (renderFieldsL fs) ++ ['}'])

/-- Rendered array elements, one piece per element. -/
def renderElemsL : List Json → List (List Char)
  | [] => []
  | e :: es => renderJson e :: renderElemsL es

/-- Rendered object members, one piece per member; `undefined`-valued
members are omitted. -/
def renderFieldsL : List (String × Json) → List (List Char)
  | [] => []
  | (k, v) :: fs =>
    if v = .undef then renderFieldsL fs
    else (renderStr k ++ ':' :: renderJson v) :: renderFieldsL fs

end

/-- JSON whitespace. -/
def jsonWs (c : Char) : Bool :=
  c = ' ' || c = Char.ofNat 9 || c = Char.ofNat 10 || c = Char.ofNat 13

/-- Skip leading JSON whitespace. -/
def skipJsonWs : List Char → List Char
  | c :: cs => if jsonWs c then skipJsonWs cs else c :: cs
  | [] => []

/-- ASCII decimal digit test. -/
def isDigitCh (c : Char) : Bool := 48 ≤ c.toNat && c.toNat ≤ 57

/-- The character named by a single-character JSON escape. -/
def unescapeJson (c : Char) : Option Char :=
  if c = '"' then some '"'
  else if c = '\\' then some '\\'
  else if c = '/' then some '/'
  else if c = 'b' then some (Char.ofNat 8)
  else if c = 't' then some (Char.ofNat 9)
  else if c = 'n' then some (Char.ofNat 10)
  else if c = 'f' then some (Char.ofNat 12)
  else if c = 'r' then some (Char.ofNat 13)
  else none

/-- Value of four hexadecimal digits. -/
def hex4Val (a b c d : Char) : Option Nat :=
  match hexDigitVal a, hexDigitVal b, hexDigitVal c, hexDigitVal d with
  | some va, some vb, some vc, some vd => some (((va * 16 + vb) * 16 + vc) * 16 + vd)
  | _, _, _, _ => none

/-- Parse a JSON string body after the opening quote: bare control
characters are rejected, escapes are decoded (`\uXXXX` escapes of
surrogate halves are modelled as the replacement character, a documented
simplification for values no well-formed stringify output contains). -/
def parseStrBody : List Char → Option (List Char × List Char)
  | [] => none
  | c :: rest =>
    if c = '"' then some ([], rest)
    else if c = '\\' then
      match rest with
      | [] => none
      | e :: r2 =>
        if e = 'u' then
          match r2 with
          | a :: b :: c2 :: d :: r3 =>
            match hex4Val a b c2 d with
            | none => none
            | some n =>
              let ch := if n.isValidChar then Char.ofNat n else Char.ofNat 65533
              (parseStrBody r3).map (fun p => (ch :: p.1, p.2))
          | _ => none
        else
          match unescapeJson e with
          | none => none
          | some ch => (parseStrBody r2).map (fun p => (ch :: p.1, p.2))
    else if c.toNat < 32 then none
    else (parseStrBody rest).map (fun p => (c :: p.1, p.2))

/-- Take a maximal run of decimal digits. -/
def takeDigitRun : List Char → List Char × List Char
  | c :: cs =>
    if isDigitCh c then
      let p := takeDigitRun cs
      (c :: p.1, p.2)
    else ([], c :: cs)
  | [] => ([], [])

/-- Numeric value of a digit run. -/
def digitRunVal (ds : List Char) : Nat :=
  ds.foldl (fun a c => a * 10 + (c.toNat - 48)) 0

/-- Parse an integer JSON number (fractions and exponents are outside
the integer number model). -/
def parseIntNumber (cs : List Char) : Option (Int × List Char) :=
  match cs with
  | [] => none
  | c :: r =>
    if c = '-' then
      let p := takeDigitRun r
      if p.1 = [] then none else some (-(digitRunVal p.1 : Int), p.2)
    else
      let p := takeDigitRun (c :: r)
      if p.1 = [] then none else some ((digitRunVal p.1 : Int), p.2)

/-- `JSON.parse` duplicate-key semantics: repeated assignment, so a
repeated key keeps its first position with its last value. -/
def buildObj (ps : List (String × Json)) : JsFields :=
  ps.foldl (fun acc p => setKey acc p.1 p.2) []

mutual

/-- Fuelled JSON value parser. -/
def parseJsonVal : Nat → List Char → Option (Json × List Char)
  | 0, _ => none
  | fuel + 1, input =>
    match skipJsonWs input with
    | [] => none
    | c :: r =>
      if c = 'n' then
        match r with
        | 'u' :: 'l' :: 'l' :: r2 => some (.null, r2)
        | _ => none
      else if c = 't' then
        match r with
        | 'r' :: 'u' :: 'e' :: r2 => some (.bool true, r2)
        | _ => none
      else if c = 'f' then
        match r with
        | 'a' :: 'l' :: 's' :: 'e' :: r2 => some (.bool false, r2)
        | _ => none
      else if c = '"' then (parseStrBody r).map (fun p => (.str (String.mk p.1), p.2))
      else if c = '[' then
        match skipJsonWs r with
        | [] => none
        | c2 :: r2 =>
          if c2 = ']' then some (.arr [], r2)
          else (parseJsonElems fuel (c2 :: r2)).map (fun p => (.arr p.1, p.2))
      else if c = '{' then
        match skipJsonWs r with
        | [] => none
        | c2 :: r2 =>
          if c2 = '}' then some (.obj [], r2)
          else (parseJsonFields fuel (c2 :: r2)).map (fun p => (.obj (buildObj p.1), p.2))
      else if c = '-' || isDigitCh c then
        (parseIntNumber (c :: r)).map (fun p => (.num p.1, p.2))
      else none

/-- Fuelled parser for one-or-more comma-separated array elements up to
the closing bracket. -/
def parseJsonElems : Nat → List Char → Option (List Json × List Char)
  | 0, _ => none
  | fuel + 1, input =>
    match parseJsonVal fuel input with
    | none => none
    | some (v, r) =>
      match skipJsonWs r with
      | [] => none
      | c :: r2 =>
        if c = ',' then (parseJsonElems fuel r2).map (fun p => (v :: p.1, p.2))
        else if c = ']' then some ([v], r2)
        else none

/-- Fuelled parser for one-or-more object members up to the closing
brace. -/
def parseJsonFields : Nat → List Char → Option (List (String × Json) × List Char)
  | 0, _ => none
  | fuel + 1, input =>
    match skipJsonWs input with
    | [] => none
    | c :: r =>
      if c = '"' then
        match parseStrBody r with
        | none => none
        | some (kcs, r1) =>
          match skipJsonWs r1 with
          | [] => none
          | c2 :: r2 =>
            if c2 = ':' then
              match parseJsonVal fuel r2 with
              | none => none
              | some (v, r3) =>
                match skipJsonWs r3 with
                | [] => none
                | c3 :: r4 =>
                  if c3 = ',' then
                    (parseJsonFields fuel r4).map (fun p => ((String.mk kcs, v) :: p.1, p.2))
                  else if c3 = '}' then some ([(String.mk kcs, v)], r4)
                  else none
            else none
      else none

end

/-- `JSON.parse` model: parse one value, then require only trailing
whitespace. -/
def jsonParse (cs : List Char) : Option Json :=
  match parseJsonVal (cs.length + 1) cs with
  | some (v, r) => if skipJsonWs r = [] then some v else none
  | none => none

/-- Input whose head cannot extend a decimal digit run (used to state
when a rendered number is parsed back exactly). -/
def numDelim : List Char → Bool
  | [] => true
  | c :: _ => !isDigitCh c

mutual

/-- Values that survive a `JSON.stringify`/`JSON.parse` round trip
exactly: no `undefined` anywhere and no duplicate object keys. -/
def jsonWF : Json → Bool
  | .undef => false
  | .null => true
  | .bool _ => true
  | .num _ => true
  | .str _ => true
  | .arr es => jsonWFList es
  | .obj fs => jsonWFFields fs

/-- `jsonWF` on every array element. -/
def jsonWFList : List Json → Bool
  | [] => true
  | e :: es => jsonWF e && jsonWFList es

/-- `jsonWF` on every member value, with pairwise-distinct keys. -/
def jsonWFFields : List (String × Json) → Bool
  | [] => true
  | (k, v) :: fs => jsonWF v && !(hasKey fs k) && jsonWFFields fs

end

/-! ### The decoder, the generator, and the structural parser -/

/-- The single `DECODE_ERROR` of `decodeDataParam` (one `try/catch`
covers all three steps; `details` carries the low-level cause, whose
exact engine wording is modelled by fixed strings). -/
def decodeError (cause : String) : ParseError :=
  { code := .DECODE_ERROR,
    message := "Failed to decode data parameter. Please check your registration link.",
    details := some (.text cause) }

/-- `decodeDataParam(encodedData, registrationType)`: percent-decode,
base64-decode, JSON-parse, then `transformDataKeys`; any decode step
failing yields `DECODE_ERROR`. -/
def decodeDataParam (encodedData : String) (registrationType : Option RegistrationType) :
    ParseResult Json :=
  match percentDecodeList encodedData.data with
  | none => .failure (decodeError "URI malformed")
  | some urlDecoded =>
    match base64Decode urlDecoded with
    | none => .failure (decodeError "invalid base64 payload")
    | some bytes =>
      match utf8Decode bytes with
      | none => .failure (decodeError "invalid UTF-8 payload")
      | some chars =>
        match jsonParse chars with
        | none => .failure (decodeError "unexpected token in JSON")
        | some jsonData => .success (transformDataKeys jsonData registrationType)

/-- The data-parameter half of `generateRegistrationUrl`:
`encodeURIComponent(base64(JSON.stringify(data)))`. -/
def encodeDataParam (data : JsFields) : String :=
  String.mk (percentEncodeList (base64EncodeBytes (utf8EncodeList (renderJson (.obj data)))))

/-- `generateRegistrationUrl`. -/
def generateRegistrationUrl (host organization : String) (registrationType : RegistrationType)
    (token : String) (data : JsFields) : String :=
  "https://" ++ host ++ "/" ++ organization ++ "/" ++ registrationType.toSlug ++ "/" ++ token ++
    "?data=" ++ encodeDataParam data

/-- The parts of a `new URL(...)` value the parser reads. -/
structure UrlObj where
  pathname : String
  search : String
deriving DecidableEq, Repr

/-- Model of the WHATWG `URL` constructor, reduced to what the parser
consumes: requires `scheme://host`, splits the remainder into pathname
and query, and drops any fragment.  An input without these parts throws
in the runtime and is `none` here. -/
def urlParse (s : String) : Option UrlObj :=
  let noFrag := (splitOnStr "#" s).headD ""
  match splitOnStr "://" noFrag with
  | scheme :: restHead :: restTail =>
    if scheme = "" then none
    else
      let after := String.intercalate "://" (restHead :: restTail)
      let hostChars := after.data.takeWhile (fun c => c ≠ '/' && c ≠ '?')
      let tail := after.data.drop hostChars.length
      if hostChars = [] then none
      else
        let pathChars := tail.takeWhile (fun c => c ≠ '?')
        let queryChars := tail.drop pathChars.length
        let query := match queryChars with
          | _ :: qs => String.mk qs
          | [] => ""
        some { pathname := if pathChars = [] then "/" else String.mk pathChars, search := query }
  | _ => none

/-- `+` is a space in `application/x-www-form-urlencoded` values. -/
def plusToSpace (cs : List Char) : List Char :=
  cs.map (fun c => if c = '+' then ' ' else c)

/-- Form-urlencoded text decoding for query components
(`URLSearchParams` never throws; an undecodable component is modelled as
passed through). -/
def formDecode (s : String) : String :=
  match percentDecodeList (plusToSpace s.data) with
  | some cs => String.mk cs
  | none => s

/-- `urlObj.searchParams.get(name)`: first matching pair, key and value
form-urldecoded, value empty when the pair has no `=`. -/
def searchParamsGet (search : String) (name : String) : Option String :=
  let pairs := (splitOnStr "&" search).filter (fun p => p ≠ "")
  (pairs.filterMap (fun pair =>
    match splitOnStr "=" pair with
    | [] => none
    | k :: vs =>
      if formDecode k = name then some (formDecode (String.intercalate "=" vs)) else none)).head?

/-- The success payload of `parseRegistrationUrl`. -/
structure ParsedRegistrationUrl where
  organization : String
  registrationType : RegistrationType
  token : String
  data : Json
deriving DecidableEq, Repr

/-- `MISSING_PARAM` message. -/
def missingParamMsg : String :=
  "Missing required \"data\" query parameter in the registration link."

/-- The `INVALID_URL` error of the `catch` block (URL constructor threw). -/
def urlConstructorError : ParseError :=
  { code := .INVALID_URL, message := "Failed to parse URL",
    details := some (.text "invalid URL") }

/-- The `INVALID_URL` error for a path that is not three segments. -/
def invalidFormatError : ParseError :=
  { code := .INVALID_URL,
    message := "Invalid URL format. Expected: /<organization>/<registration-type>/<token>" }

/-- The `INVALID_URL` error for a bad organization segment. -/
def invalidOrgError (organization : String) : ParseError :=
  { code := .INVALID_URL, message := "Invalid organization name: " ++ organization }

/-- The `INVALID_URL` error for an unknown flow-type segment. -/
def invalidTypeError (typeSegment : String) : ParseError :=
  { code := .INVALID_URL,
    message := "Invalid registration type: " ++ typeSegment ++ ". Must be one of: " ++
      String.intercalate ", " (REGISTRATION_TYPES.map RegistrationType.toSlug) }

/-- The `INVALID_TOKEN` error. -/
def invalidTokenError : ParseError :=
  { code := .INVALID_TOKEN, message := "Invalid token format. Token must be a valid UUID." }

/-- The `MISSING_PARAM` error. -/
def missingParamError : ParseError :=
  { code := .MISSING_PARAM, message := missingParamMsg }

/-- The stages of `parseRegistrationUrl` after the path has split into
exactly three segments: organization, flow type, token, `data`
presence, decode, validate — returning the first failing stage's error
unchanged. -/
def parseTriple (urlObj : UrlObj) (organization typeSegment token : String) :
    ParseResult ParsedRegistrationUrl :=
  if !(isValidOrganization organization) then
    .failure (invalidOrgError organization)
  else
    match parseRegistrationType typeSegment with
    | none => .failure (invalidTypeError typeSegment)
    | some registrationType =>
      if !(isValidUUID token) then
        .failure invalidTokenError
      else
        match searchParamsGet urlObj.search "data" with
        | none => .failure missingParamError
        | some dataParam =>
          if dataParam = "" then
            .failure missingParamError
          else
            match decodeDataParam dataParam (some registrationType) with
            | .failure e => .failure e
            | .success decoded =>
              match validateData registrationType decoded with
              | .failure e => .failure e
              | .success validated =>
                .success { organization := organization,
                           registrationType := registrationType,
                           token := token, data := validated }

/-- `parseRegistrationUrl(url)`: URL shape and the three-segment path
split, then `parseTriple` for the per-segment checks and the inner
stages. -/
def parseRegistrationUrl (url : String) : ParseResult ParsedRegistrationUrl :=
  match urlParse url with
  | none => .failure urlConstructorError
  | some urlObj =>
    match (splitOnStr "/" urlObj.pathname).filter (fun p => p ≠ "") with
    | [organization, typeSegment, token] => parseTriple urlObj organization typeSegment token
    | _ => .failure invalidFormatError

/-! ### Association-list lemmas -/

theorem getKey_setKey_self (l : JsFields) (k : String) (v : Json) :
    getKey (setKey l k v) k = some v := by
  induction l with
  | nil => simp [setKey, getKey]
  | cons p rest ih =>
    obtain ⟨k1, v1⟩ := p
    by_cases h : k1 = k
    · simp [setKey, getKey, h]
    · simp [setKey, getKey, h, ih]

theorem getKey_setKey_ne (l : JsFields) (k k' : String) (v : Json) (h : k' ≠ k) :
    getKey (setKey l k v) k' = getKey l k' := by
  have hne : ¬(k = k') := fun e => h e.symm
  induction l with
  | nil => simp [setKey, getKey, hne]
  | cons p rest ih =>
    obtain ⟨k1, v1⟩ := p
    by_cases h1 : k1 = k
    · subst h1
      simp [setKey, getKey, hne]
    · simp [setKey, getKey, h1, ih]

theorem hasKey_setKey (l : JsFields) (k k' : String) (v : Json) :
    hasKey (setKey l k v) k' = (k' = k || hasKey l k') := by
  by_cases h : k' = k
  · subst h
    simp [hasKey, getKey_setKey_self]
  · simp [hasKey, getKey_setKey_ne l k k' v h, h]

theorem mem_setKey {p : String × Json} {l : JsFields} {k : String} {v : Json}
    (h : p ∈ setKey l k v) : p ∈ l ∨ p = (k, v) := by
  induction l with
  | nil => simpa [setKey] using h
  | cons q rest ih =>
    obtain ⟨k1, v1⟩ := q
    by_cases h1 : k1 = k
    · simp only [setKey, if_pos h1, List.mem_cons] at h
      rcases h with h | h
      · right; rw [h, h1]
      · left; simp [h]
    · simp only [setKey, if_neg h1, List.mem_cons] at h
      rcases h with h | h
      · left; simp [h]
      · rcases ih h with h2 | h2
        · left; simp [h2]
        · right; exact h2

theorem getKey_eq_some_mem {l : JsFields} {k : String} {v : Json}
    (h : getKey l k = some v) : (k, v) ∈ l := by
  induction l with
  | nil => simp [getKey] at h
  | cons p rest ih =>
    obtain ⟨k1, v1⟩ := p
    by_cases h1 : k1 = k
    · subst h1
      have hv : v1 = v := by simpa [getKey] using h
      simp [← hv]
    · simp only [getKey, if_neg h1] at h
      simp [ih h]

theorem hasKey_false_not_mem {l : JsFields} {k : String} :
    hasKey l k = false → ∀ v, (k, v) ∉ l := by
  induction l with
  | nil =>
    intro _ v hm
    simp at hm
  | cons p rest ih =>
    obtain ⟨k1, v1⟩ := p
    intro h v hm
    by_cases h1 : k1 = k
    · subst h1
      simp [hasKey, getKey] at h
    · rcases List.mem_cons.mp hm with h2 | h2
      · exact h1 (congrArg Prod.fst h2.symm)
      · exact ih (by simpa [hasKey, getKey, h1] using h) v h2

theorem hasKey_exists_mem {l : JsFields} {k : String}
    (h : hasKey l k = true) : ∃ v, (k, v) ∈ l := by
  simp only [hasKey, Option.isSome_iff_exists] at h
  obtain ⟨v, hv⟩ := h
  exact ⟨v, getKey_eq_some_mem hv⟩

/-- Keys of a field list are pairwise distinct. -/
def keysNodup (l : JsFields) : Prop := (l.map Prod.fst).Nodup

theorem keysNodup_setKey {l : JsFields} (k : String) (v : Json) (h : keysNodup l) :
    keysNodup (setKey l k v) := by
  induction l with
  | nil => simp [setKey, keysNodup]
  | cons p rest ih =>
    obtain ⟨k1, v1⟩ := p
    simp only [keysNodup, List.map_cons, List.nodup_cons] at h
    by_cases h1 : k1 = k
    · simp only [setKey, if_pos h1, keysNodup, List.map_cons, List.nodup_cons]
      exact h
    · simp only [setKey, if_neg h1, keysNodup, List.map_cons, List.nodup_cons]
      constructor
      · intro hmem
        simp only [List.mem_map] at hmem
        obtain ⟨q, hq, hqk⟩ := hmem
        rcases mem_setKey hq with h2 | h2
        · exact h.1 (by simpa [hqk] using List.mem_map_of_mem Prod.fst h2)
        · exact h1 (by rw [← hqk, h2])
      · exact ih h.2

theorem getKey_of_mem_nodup {l : JsFields} {k : String} {v : Json}
    (hn : keysNodup l) (hm : (k, v) ∈ l) : getKey l k = some v := by
  induction l with
  | nil => simp at hm
  | cons p rest ih =>
    obtain ⟨k1, v1⟩ := p
    simp only [keysNodup, List.map_cons, List.nodup_cons] at hn
    rcases List.mem_cons.mp hm with h | h
    · obtain ⟨h1, h2⟩ := Prod.mk.inj h.symm
      simp [getKey, h1, h2]
    · have hne : k1 ≠ k := by
        intro e
        exact hn.1 (e ▸ List.mem_map_of_mem Prod.fst h)
      simp [getKey, hne, ih hn.2 h]

/-! ### Character-case lemmas (ASCII model) -/

theorem char_toNat_inj {a b : Char} (h : a.toNat = b.toNat) : a = b := by
  have := congrArg Char.ofNat h
  rwa [Char.ofNat_toNat, Char.ofNat_toNat] at this

theorem toNat_ofNat_valid {n : Nat} (h : n.isValidChar) : (Char.ofNat n).toNat = n := by
  rw [Char.ofNat, dif_pos h]
  rfl

theorem toNat_ofNat_small {n : Nat} (h : n < 55296) : (Char.ofNat n).toNat = n :=
  toNat_ofNat_valid (Or.inl h)

theorem toLower_toNat (c : Char) :
    (Char.toLower c).toNat =
      if 65 ≤ c.toNat ∧ c.toNat ≤ 90 then c.toNat + 32 else c.toNat := by
  simp only [Char.toLower]
  by_cases h : 65 ≤ c.toNat ∧ c.toNat ≤ 90
  · rw [if_pos (show c.toNat ≥ 65 ∧ c.toNat ≤ 90 by omega), if_pos h]
    exact toNat_ofNat_small (by omega)
  · rw [if_neg (show ¬(c.toNat ≥ 65 ∧ c.toNat ≤ 90) by omega), if_neg h]

theorem toLower_idem (c : Char) : c.toLower.toLower = c.toLower := by
  apply char_toNat_inj
  rw [toLower_toNat c.toLower, toLower_toNat c]
  by_cases h : 65 ≤ c.toNat ∧ c.toNat ≤ 90
  · simp only [if_pos h]
    rw [if_neg (by omega)]
  · simp only [if_neg h]

theorem lowerFirst_idem (s : String) : lowerFirst (lowerFirst s) = lowerFirst s := by
  obtain ⟨data⟩ := s
  cases data with
  | nil => rfl
  | cons c rest => simp [lowerFirst, toLower_idem]

/-- Values of `Char.toLower`: either the input was an ASCII capital and
the result is its lowercase form, or the input is returned unchanged. -/
theorem toLower_cases (c : Char) :
    (65 ≤ c.toNat ∧ c.toNat ≤ 90 ∧ (Char.toLower c).toNat = c.toNat + 32) ∨
    (¬(65 ≤ c.toNat ∧ c.toNat ≤ 90) ∧ Char.toLower c = c) := by
  by_cases h : 65 ≤ c.toNat ∧ c.toNat ≤ 90
  · exact Or.inl ⟨h.1, h.2, by rw [toLower_toNat, if_pos h]⟩
  · exact Or.inr ⟨h, char_toNat_inj (by rw [toLower_toNat, if_neg h])⟩

/-! ### The normalizer's phases

`transformObj` is a `let` chain; these named phases are definitionally
equal to its stages, giving the proofs stable handles. -/

/-- The context-aware `Id`/`id` branch of `transformDataKeys`. -/
def idPhase (data : JsFields) (registrationType : Option RegistrationType) : JsFields :=
  if hasKey data "Id" || hasKey data "id" then
    let idValue := if truthy (getProp data "Id") then getProp data "Id" else getProp data "id"
    match registrationType with
    | some .customerEmailVerification => setKey [] "customerId" idValue
    | some .userSignupConfirm => setKey [] "orgUserId" idValue
    | some .userInviteConfirm => setKey [] "orgUserId" idValue
    | _ => setKey [] "customerId" idValue
  else []

/-- The explicit-`customerId` copy of `transformDataKeys`. -/
def copyPhase (data acc : JsFields) : JsFields :=
  if hasKey data "customerId" && !(truthy (getProp acc "customerId")) then
    setKey acc "customerId" (getProp data "customerId")
  else acc

/-- One step of the known-key mapping loop. -/
def knownStep (data acc : JsFields) (p : String × String) : JsFields :=
  if hasKey data p.1 then setKey acc p.2 (nullToUndef (getProp data p.1)) else acc

/-- One step of the unknown-key camel-casing loop. -/
def unknownStep (data acc : JsFields) (p : String × Json) : JsFields :=
  if unknownKeyEligible p.1 then
    setKey acc (lowerFirst p.1) (nullToUndef (getProp data p.1))
  else acc

theorem transformObj_phases (data : JsFields) (t : Option RegistrationType) :
    transformObj data t =
      data.foldl (unknownStep data)
        (keyMappings.foldl (knownStep data) (copyPhase data (idPhase data t))) := rfl

/-! ### Characterizing the two loops -/

/-- Where the known-key loop leaves the property `k`: untouched (and no
mapping entry targeting `k` fired), or set from some external spelling
`e` that maps to `k` and is present in the payload. -/
theorem known_fold_getKey_char (data : JsFields) (ms : List (String × String))
    (acc : JsFields) (k : String) :
    (getKey (ms.foldl (knownStep data) acc) k = getKey acc k ∧
      ∀ p ∈ ms, p.2 = k → hasKey data p.1 = false) ∨
    (∃ e, (e, k) ∈ ms ∧ hasKey data e = true ∧
      getKey (ms.foldl (knownStep data) acc) k = some (nullToUndef (getProp data e))) := by
  induction ms generalizing acc with
  | nil =>
    left
    exact ⟨rfl, by simp⟩
  | cons p rest ih =>
    simp only [List.foldl_cons]
    rcases ih (knownStep data acc p) with ⟨heq, hall⟩ | ⟨e, hmem, hhk, heq⟩
    · cases hd : hasKey data p.1 with
      | true =>
        by_cases hpk : p.2 = k
        · right
          refine ⟨p.1, ?_, hd, ?_⟩
          · rw [← hpk, Prod.mk.eta]
            exact List.mem_cons_self _ _
          · rw [heq]
            simp only [knownStep, if_pos hd]
            rw [hpk, getKey_setKey_self]
        · left
          refine ⟨?_, ?_⟩
          · rw [heq]
            simp only [knownStep, if_pos hd]
            exact getKey_setKey_ne _ _ _ _ (fun e2 => hpk e2.symm)
          · intro q hq hqk
            rcases List.mem_cons.mp hq with h2 | h2
            · exact absurd (h2 ▸ hqk) hpk
            · exact hall q h2 hqk
      | false =>
        left
        refine ⟨?_, ?_⟩
        · rw [heq]
          simp only [knownStep, hd, Bool.false_eq_true, if_false]
        · intro q hq hqk
          rcases List.mem_cons.mp hq with h2 | h2
          · rw [h2]
            exact hd
          · exact hall q h2 hqk
    · right
      exact ⟨e, List.mem_cons_of_mem _ hmem, hhk, heq⟩

/-- Where the unknown-key loop leaves the property `k`: untouched (and
no eligible payload key camel-cases to `k`), or set from some eligible
payload key whose camel-cased form is `k`. -/
theorem unknown_fold_getKey_char (data entries : JsFields) (acc : JsFields) (k : String) :
    (getKey (entries.foldl (unknownStep data) acc) k = getKey acc k ∧
      ∀ p ∈ entries, unknownKeyEligible p.1 = true → lowerFirst p.1 ≠ k) ∨
    (∃ e v, (e, v) ∈ entries ∧ unknownKeyEligible e = true ∧ lowerFirst e = k ∧
      getKey (entries.foldl (unknownStep data) acc) k = some (nullToUndef (getProp data e))) := by
  induction entries generalizing acc with
  | nil =>
    left
    exact ⟨rfl, by simp⟩
  | cons p rest ih =>
    simp only [List.foldl_cons]
    rcases ih (unknownStep data acc p) with ⟨heq, hall⟩ | ⟨e, v, hmem, hel, hlf, heq⟩
    · cases hel : unknownKeyEligible p.1 with
      | true =>
        by_cases hpk : lowerFirst p.1 = k
        · right
          refine ⟨p.1, p.2, List.mem_cons_self _ _, hel, hpk, ?_⟩
          rw [heq]
          simp only [unknownStep, if_pos hel]
          rw [hpk, getKey_setKey_self]
        · left
          refine ⟨?_, ?_⟩
          · rw [heq]
            simp only [unknownStep, if_pos hel]
            exact getKey_setKey_ne _ _ _ _ (fun e2 => hpk e2.symm)
          · intro q hq hqel
            rcases List.mem_cons.mp hq with h2 | h2
            · rw [h2]
              exact hpk
            · exact hall q h2 hqel
      | false =>
        left
        refine ⟨?_, ?_⟩
        · rw [heq]
          simp only [unknownStep, hel, Bool.false_eq_true, if_false]
        · intro q hq hqel
          rcases List.mem_cons.mp hq with h2 | h2
          · rw [h2] at hqel
            rw [hel] at hqel
            cases hqel
          · exact hall q h2 hqel
    · right
      exact ⟨e, v, List.mem_cons_of_mem _ hmem, hel, hlf, heq⟩

/-- Every field of the known-key loop's result comes from the
accumulator or from a fired mapping entry. -/
theorem mem_known_fold {q : String × Json} {data : JsFields} {ms : List (String × String)}
    {acc : JsFields} (h : q ∈ ms.foldl (knownStep data) acc) :
    q ∈ acc ∨ ∃ p ∈ ms, hasKey data p.1 = true ∧ q = (p.2, nullToUndef (getProp data p.1)) := by
  induction ms generalizing acc with
  | nil =>
    left
    simpa using h
  | cons p rest ih =>
    simp only [List.foldl_cons] at h
    rcases ih h with h2 | ⟨p2, hp2, hk2, he2⟩
    · simp only [knownStep] at h2
      by_cases hd : hasKey data p.1 = true
      · rw [if_pos hd] at h2
        rcases mem_setKey h2 with h3 | h3
        · exact Or.inl h3
        · exact Or.inr ⟨p, List.mem_cons_self _ _, hd, h3⟩
      · rw [if_neg hd] at h2
        exact Or.inl h2
    · exact Or.inr ⟨p2, List.mem_cons_of_mem _ hp2, hk2, he2⟩

/-- Every field of the unknown-key loop's result comes from the
accumulator or from an eligible payload key. -/
theorem mem_unknown_fold {q : String × Json} {data entries : JsFields}
    {acc : JsFields} (h : q ∈ entries.foldl (unknownStep data) acc) :
    q ∈ acc ∨ ∃ p ∈ entries, unknownKeyEligible p.1 = true ∧
      q = (lowerFirst p.1, nullToUndef (getProp data p.1)) := by
  induction entries generalizing acc with
  | nil =>
    left
    simpa using h
  | cons p rest ih =>
    simp only [List.foldl_cons] at h
    rcases ih h with h2 | ⟨p2, hp2, hk2, he2⟩
    · simp only [unknownStep] at h2
      by_cases hel : unknownKeyEligible p.1 = true
      · rw [if_pos hel] at h2
        rcases mem_setKey h2 with h3 | h3
        · exact Or.inl h3
        · exact Or.inr ⟨p, List.mem_cons_self _ _, hel, h3⟩
      · rw [if_neg hel] at h2
        exact Or.inl h2
    · exact Or.inr ⟨p2, List.mem_cons_of_mem _ hp2, hk2, he2⟩

theorem keysNodup_known_fold {data : JsFields} (ms : List (String × String))
    {acc : JsFields} (h : keysNodup acc) : keysNodup (ms.foldl (knownStep data) acc) := by
  induction ms generalizing acc with
  | nil => exact h
  | cons p rest ih =>
    simp only [List.foldl_cons]
    apply ih
    simp only [knownStep]
    by_cases hd : hasKey data p.1 = true
    · rw [if_pos hd]
      exact keysNodup_setKey _ _ h
    · rw [if_neg hd]
      exact h

theorem keysNodup_unknown_fold {data : JsFields} (entries : JsFields)
    {acc : JsFields} (h : keysNodup acc) : keysNodup (entries.foldl (unknownStep data) acc) := by
  induction entries generalizing acc with
  | nil => exact h
  | cons p rest ih =>
    simp only [List.foldl_cons]
    apply ih
    simp only [unknownStep]
    by_cases hel : unknownKeyEligible p.1 = true
    · rw [if_pos hel]
      exact keysNodup_setKey _ _ h
    · rw [if_neg hel]
      exact h

/-! ### What `lowerFirst` can produce -/

theorem string_eq_of_data {s t : String} (h : s.data = t.data) : s = t :=
  congrArg String.mk h

theorem lowerFirst_eq_cons {s : String} {d : Char} {ds : List Char}
    (h : lowerFirst s = String.mk (d :: ds)) :
    ∃ c, s.data = c :: ds ∧ Char.toLower c = d := by
  obtain ⟨data⟩ := s
  cases data with
  | nil =>
    exact absurd (congrArg String.data h) (by simp [lowerFirst])
  | cons c rest =>
    have h2 : Char.toLower c :: rest = d :: ds := congrArg String.data h
    obtain ⟨h3, h4⟩ := List.cons.inj h2
    exact ⟨c, by rw [h4], h3⟩

theorem toLower_eq_inv {c d : Char} (h : Char.toLower c = d) :
    c = d ∨ (65 ≤ c.toNat ∧ c.toNat ≤ 90 ∧ d.toNat = c.toNat + 32) := by
  rcases toLower_cases c with ⟨h1, h2, h3⟩ | ⟨h1, h2⟩
  · exact Or.inr ⟨h1, h2, by rw [← h, h3]⟩
  · exact Or.inl (by rw [← h, h2])

theorem toLower_eq_i {c : Char} (h : Char.toLower c = 'i') : c = 'i' ∨ c = 'I' := by
  rcases toLower_eq_inv h with h1 | ⟨h1, h2, h3⟩
  · exact Or.inl h1
  · right
    apply char_toNat_inj
    have : ('i' : Char).toNat = 105 := by decide
    rw [this] at h3
    have : ('I' : Char).toNat = 73 := by decide
    omega

theorem toLower_eq_c {c : Char} (h : Char.toLower c = 'c') : c = 'c' ∨ c = 'C' := by
  rcases toLower_eq_inv h with h1 | ⟨h1, h2, h3⟩
  · exact Or.inl h1
  · right
    apply char_toNat_inj
    have : ('c' : Char).toNat = 99 := by decide
    rw [this] at h3
    have : ('C' : Char).toNat = 67 := by decide
    omega

theorem toLower_eq_o {c : Char} (h : Char.toLower c = 'o') : c = 'o' ∨ c = 'O' := by
  rcases toLower_eq_inv h with h1 | ⟨h1, h2, h3⟩
  · exact Or.inl h1
  · right
    apply char_toNat_inj
    have : ('o' : Char).toNat = 111 := by decide
    rw [this] at h3
    have : ('O' : Char).toNat = 79 := by decide
    omega

/-- No character lowercases to a capital, so `lowerFirst` never yields
`"Id"`. -/
theorem toLower_ne_upper {c d : Char} (hd : 65 ≤ d.toNat ∧ d.toNat ≤ 90) :
    Char.toLower c ≠ d := by
  intro h
  have ht := toLower_toNat c
  rw [h] at ht
  by_cases hr : 65 ≤ c.toNat ∧ c.toNat ≤ 90
  · rw [if_pos hr] at ht
    omega
  · rw [if_neg hr] at ht
    exact hr (by omega)

theorem lowerFirst_ne_Id (s : String) : lowerFirst s ≠ "Id" := by
  intro h
  obtain ⟨c, hdata, hlow⟩ := lowerFirst_eq_cons (h.trans (by rfl))
  exact toLower_ne_upper (by decide) hlow

theorem lowerFirst_eq_id {s : String} (h : lowerFirst s = "id") : s = "id" ∨ s = "Id" := by
  obtain ⟨c, hdata, hlow⟩ := lowerFirst_eq_cons (h.trans (by rfl))
  rcases toLower_eq_i hlow with h1 | h1
  · left
    exact string_eq_of_data (by rw [hdata, h1])
  · right
    exact string_eq_of_data (by rw [hdata, h1])

theorem lowerFirst_eq_customerId {s : String} (h : lowerFirst s = "customerId") :
    s = "customerId" ∨ s = "CustomerId" := by
  obtain ⟨c, hdata, hlow⟩ := lowerFirst_eq_cons (h.trans (by rfl))
  rcases toLower_eq_c hlow with h1 | h1
  · left
    exact string_eq_of_data (by rw [hdata, h1])
  · right
    exact string_eq_of_data (by rw [hdata, h1])

theorem lowerFirst_eq_orgUserId {s : String} (h : lowerFirst s = "orgUserId") :
    s = "orgUserId" ∨ s = "OrgUserId" := by
  obtain ⟨c, hdata, hlow⟩ := lowerFirst_eq_cons (h.trans (by rfl))
  rcases toLower_eq_o hlow with h1 | h1
  · left
    exact string_eq_of_data (by rw [hdata, h1])
  · right
    exact string_eq_of_data (by rw [hdata, h1])

/-! ### Facts about the mapping table, by evaluation -/

theorem customerId_not_a_target : ∀ p ∈ keyMappings, p.2 ≠ "customerId" := by decide

theorem orgUserId_targets : ∀ p ∈ keyMappings, p.2 = "orgUserId" →
    p.1 = "OrgUserId" ∨ p.1 = "orgUserId" := by decide

theorem id_not_a_target : ∀ p ∈ keyMappings, p.2 ≠ "id" ∧ p.2 ≠ "Id" := by decide

/-- A mapping entry whose external spelling already starts lowercase
maps it to itself. -/
theorem lower_spelling_is_identity :
    ∀ p ∈ keyMappings, lowerFirst p.1 = p.1 → p.2 = p.1 := by decide

/-- Every mapping target starts lowercase (is a `lowerFirst` fixed
point) and is a table key itself. -/
theorem target_facts :
    ∀ p ∈ keyMappings, lowerFirst p.2 = p.2 ∧ inKeyMappings p.2 = true := by decide

theorem hasKey_false_of_no_mem {fs : JsFields} {k : String}
    (h : ∀ v, (k, v) ∉ fs) : hasKey fs k = false := by
  cases hk : hasKey fs k
  · rfl
  · obtain ⟨v, hv⟩ := hasKey_exists_mem hk
    exact absurd hv (h v)

/-! ### The identifier phase, pinned down -/

/-- The key the `Id` branch writes for a given flow context. -/
def idTargetKey : Option RegistrationType → String
  | some .userSignupConfirm => "orgUserId"
  | some .userInviteConfirm => "orgUserId"
  | _ => "customerId"

/-- When an `Id` (or, failing a truthy `Id`, an `id`) key carries the
truthy value `X`, the identifier phase produces exactly the one-field
object binding the context's target key to `X`. -/
theorem idPhase_eq_of_id {fs : JsFields} {X : Json} (t : Option RegistrationType)
    (hX : truthy X = true)
    (hid : getKey fs "Id" = some X ∨ (hasKey fs "Id" = false ∧ getKey fs "id" = some X)) :
    idPhase fs t = [(idTargetKey t, X)] := by
  have hval : (if truthy (getProp fs "Id") then getProp fs "Id" else getProp fs "id") = X := by
    rcases hid with h | ⟨h1, h2⟩
    · rw [getProp, h, Option.getD_some, if_pos hX]
    · cases hg : getKey fs "Id" with
      | some v =>
        rw [hasKey, hg] at h1
        simp at h1
      | none => simp [getProp, hg, h2, truthy]
  have hcond : (hasKey fs "Id" || hasKey fs "id") = true := by
    rcases hid with h | ⟨_, h⟩
    · rw [Bool.or_eq_true]
      exact Or.inl (by rw [hasKey, h]; rfl)
    · rw [Bool.or_eq_true]
      exact Or.inr (by rw [hasKey, h]; rfl)
  cases t with
  | none => simp only [idPhase, hcond, if_true, hval, idTargetKey, setKey]
  | some rt => cases rt <;> simp only [idPhase, hcond, if_true, hval, idTargetKey, setKey]

/-- The known-key loop never writes `customerId` (no table entry
targets it). -/
theorem known_fold_customerId (fs acc : JsFields) :
    getKey (keyMappings.foldl (knownStep fs) acc) "customerId" = getKey acc "customerId" := by
  rcases known_fold_getKey_char fs keyMappings acc "customerId" with ⟨heq, _⟩ | ⟨e, hmem, _, _⟩
  · exact heq
  · exact absurd rfl (customerId_not_a_target _ hmem)

/-- The known-key loop leaves `orgUserId` alone when neither spelling
of the organization-user id is a payload key. -/
theorem known_fold_orgUserId (fs acc : JsFields)
    (h1 : hasKey fs "OrgUserId" = false) (h2 : hasKey fs "orgUserId" = false) :
    getKey (keyMappings.foldl (knownStep fs) acc) "orgUserId" = getKey acc "orgUserId" := by
  rcases known_fold_getKey_char fs keyMappings acc "orgUserId" with ⟨heq, _⟩ | ⟨e, hmem, hhk, _⟩
  · exact heq
  · rcases orgUserId_targets _ hmem rfl with he | he
    · have he2 : e = "OrgUserId" := he
      rw [he2, h1] at hhk
      exact absurd hhk (by decide)
    · have he2 : e = "orgUserId" := he
      rw [he2, h2] at hhk
      exact absurd hhk (by decide)

/-- The unknown-key loop leaves `k` alone when no eligible payload key
camel-cases to `k`. -/
theorem unknown_fold_untouched (fs acc : JsFields) (k : String)
    (h : ∀ p ∈ fs, unknownKeyEligible p.1 = true → lowerFirst p.1 ≠ k) :
    getKey (fs.foldl (unknownStep fs) acc) k = getKey acc k := by
  rcases unknown_fold_getKey_char fs fs acc k with ⟨heq, _⟩ | ⟨e, v, hmem, hel, hlf, _⟩
  · exact heq
  · exact absurd hlf (h _ hmem hel)

/-- No identifier-feeding key besides `Id`/`id` themselves: nothing
camel-cases to `customerId` or `orgUserId` (this also rules out literal
`customerId`, `CustomerId`, `orgUserId` and `OrgUserId` keys, which are
their own or each other's camel-cased forms). -/
abbrev NoOtherIdField (fs : JsFields) : Prop :=
  ∀ p ∈ fs, lowerFirst p.1 ≠ "customerId" ∧ lowerFirst p.1 ≠ "orgUserId"

theorem noOther_hasKey_customerId {fs : JsFields} (h : NoOtherIdField fs) :
    hasKey fs "customerId" = false :=
  hasKey_false_of_no_mem (fun _v hv => absurd rfl (h _ hv).1)

theorem noOther_hasKey_OrgUserId {fs : JsFields} (h : NoOtherIdField fs) :
    hasKey fs "OrgUserId" = false :=
  hasKey_false_of_no_mem (fun _v hv => absurd rfl (h _ hv).2)

theorem noOther_hasKey_orgUserId {fs : JsFields} (h : NoOtherIdField fs) :
    hasKey fs "orgUserId" = false :=
  hasKey_false_of_no_mem (fun _v hv => absurd rfl (h _ hv).2)

/-- Core of the context-aware mapping for the customer flow, frame
conditions included. -/
theorem transform_only_id_customer {fs : JsFields} {X : Json}
    (hX : truthy X = true)
    (hid : getKey fs "Id" = some X ∨ (hasKey fs "Id" = false ∧ getKey fs "id" = some X))
    (hno : NoOtherIdField fs) :
    getKey (transformObj fs (some .customerEmailVerification)) "customerId" = some X ∧
    hasKey (transformObj fs (some .customerEmailVerification)) "orgUserId" = false := by
  have hidp := idPhase_eq_of_id (some .customerEmailVerification) hX hid
  have hcust := noOther_hasKey_customerId hno
  have hcopy : copyPhase fs (idPhase fs (some .customerEmailVerification)) =
      idPhase fs (some .customerEmailVerification) := by
    rw [copyPhase, hcust]
    rfl
  rw [transformObj_phases, hcopy, hidp]
  constructor
  · rw [unknown_fold_untouched fs _ "customerId" (fun p hp _ => (hno p hp).1),
        known_fold_customerId]
    simp [getKey, idTargetKey]
  · rw [hasKey,
        unknown_fold_untouched fs _ "orgUserId" (fun p hp _ => (hno p hp).2),
        known_fold_orgUserId fs _ (noOther_hasKey_OrgUserId hno) (noOther_hasKey_orgUserId hno)]
    simp [getKey, idTargetKey]

/-- Core of the context-aware mapping for the two user flows. -/
theorem transform_only_id_user {fs : JsFields} {X : Json} {rt : RegistrationType}
    (hrt : rt = RegistrationType.userSignupConfirm ∨ rt = RegistrationType.userInviteConfirm)
    (hX : truthy X = true)
    (hid : getKey fs "Id" = some X ∨ (hasKey fs "Id" = false ∧ getKey fs "id" = some X))
    (hno : NoOtherIdField fs) :
    getKey (transformObj fs (some rt)) "orgUserId" = some X ∧
    hasKey (transformObj fs (some rt)) "customerId" = false := by
  have hidp := idPhase_eq_of_id (some rt) hX hid
  have htgt : idTargetKey (some rt) = "orgUserId" := by
    rcases hrt with h | h <;> rw [h] <;> rfl
  have hcust := noOther_hasKey_customerId hno
  have hcopy : copyPhase fs (idPhase fs (some rt)) = idPhase fs (some rt) := by
    rw [copyPhase, hcust]
    rfl
  rw [transformObj_phases, hcopy, hidp, htgt]
  constructor
  · rw [unknown_fold_untouched fs _ "orgUserId" (fun p hp _ => (hno p hp).2),
        known_fold_orgUserId fs _ (noOther_hasKey_OrgUserId hno) (noOther_hasKey_orgUserId hno)]
    simp [getKey]
  · rw [hasKey,
        unknown_fold_untouched fs _ "customerId" (fun p hp _ => (hno p hp).1),
        known_fold_customerId]
    simp [getKey]

/-! ### More helper lemmas for the precedence and truthiness claims -/

theorem nullToUndef_ne_null (v : Json) : nullToUndef v ≠ .null := by
  by_cases h : v = .null
  · rw [nullToUndef, if_pos h]
    exact fun e => Json.noConfusion e
  · rw [nullToUndef, if_neg h]
    exact h

theorem copyPhase_getKey_ne (data acc : JsFields) (k : String) (h : k ≠ "customerId") :
    getKey (copyPhase data acc) k = getKey acc k := by
  rw [copyPhase]
  by_cases hc : (hasKey data "customerId" && !truthy (getProp acc "customerId")) = true
  · rw [if_pos hc]
    exact getKey_setKey_ne _ _ _ _ h
  · rw [if_neg hc]

/-- An eligible-key hypothesis for `customerId` from a claim-level "no
`CustomerId` spelling" frame condition. -/
theorem eligible_frame_customerId {fs : JsFields}
    (h : ∀ p ∈ fs, p.1 ≠ "customerId" → lowerFirst p.1 ≠ "customerId") :
    ∀ p ∈ fs, unknownKeyEligible p.1 = true → lowerFirst p.1 ≠ "customerId" := by
  intro p hp hel
  apply h p hp
  intro he
  rw [he] at hel
  exact absurd hel (by decide)

/-! ### Claim theorems: the normalizer (C1, C5, C7, C10) -/

/-- A bridge: `transformDataKeys` on an object is `transformObj`. -/
theorem transformDataKeys_obj (fs : JsFields) (t : Option RegistrationType) :
    transformDataKeys (.obj fs) t = .obj (transformObj fs t) := rfl

/-- C1 (amended): for a payload whose only identifier-feeding field is
`Id` (or `id`) carrying a JavaScript-**truthy** value `X`, normalizing
under `customer-email-verification` binds `customerId` to `X` with no
`orgUserId`, and normalizing under `user-signup-confirm` or
`user-invite-confirm` binds `orgUserId` to `X` with no `customerId`.
(The truthiness hypothesis is forced: the source reads
`data.Id || data.id`, so a falsy `X` is not propagated — see the
counterexample.) -/
theorem C1_context_aware_id_mapping (fs : JsFields) (X : Json)
    (hX : truthy X = true)
    (hid : getKey fs "Id" = some X ∨ (hasKey fs "Id" = false ∧ getKey fs "id" = some X))
    (hno : NoOtherIdField fs) :
    (getKey (transformObj fs (some .customerEmailVerification)) "customerId" = some X ∧
      hasKey (transformObj fs (some .customerEmailVerification)) "orgUserId" = false) ∧
    (getKey (transformObj fs (some .userSignupConfirm)) "orgUserId" = some X ∧
      hasKey (transformObj fs (some .userSignupConfirm)) "customerId" = false) ∧
    (getKey (transformObj fs (some .userInviteConfirm)) "orgUserId" = some X ∧
      hasKey (transformObj fs (some .userInviteConfirm)) "customerId" = false) :=
  ⟨transform_only_id_customer hX hid hno,
   transform_only_id_user (Or.inl rfl) hX hid hno,
   transform_only_id_user (Or.inr rfl) hX hid hno⟩

/-- C1 witness at a concrete payload. -/
theorem C1_context_aware_id_mapping_witness :
    (getKey (transformObj [("Id", Json.str "81b9582e")]
        (some .customerEmailVerification)) "customerId" = some (Json.str "81b9582e") ∧
      hasKey (transformObj [("Id", Json.str "81b9582e")]
        (some .customerEmailVerification)) "orgUserId" = false) ∧
    (getKey (transformObj [("Id", Json.str "81b9582e")]
        (some .userSignupConfirm)) "orgUserId" = some (Json.str "81b9582e") ∧
      hasKey (transformObj [("Id", Json.str "81b9582e")]
        (some .userSignupConfirm)) "customerId" = false) ∧
    (getKey (transformObj [("Id", Json.str "81b9582e")]
        (some .userInviteConfirm)) "orgUserId" = some (Json.str "81b9582e") ∧
      hasKey (transformObj [("Id", Json.str "81b9582e")]
        (some .userInviteConfirm)) "customerId" = false) :=
  C1_context_aware_id_mapping [("Id", Json.str "81b9582e")] (Json.str "81b9582e")
    (by decide) (Or.inl (by decide)) (by decide)

/-- C1 counterexample: with `Id = ""` (falsy) and no other identifier
field, the customer flow binds `customerId` to `undefined`, not to the
payload's value — so the unamended claim `customerId == X` fails. -/
theorem C1_counterexample :
    getKey (transformObj [("Id", Json.str "")] (some .customerEmailVerification)) "customerId" ≠
      some (Json.str "") := by decide

/-- Both loops together leave `customerId` as the earlier phases left
it, as long as no eligible payload key camel-cases to `customerId`. -/
theorem loops_customerId (fs acc : JsFields)
    (h : ∀ p ∈ fs, unknownKeyEligible p.1 = true → lowerFirst p.1 ≠ "customerId") :
    getKey (fs.foldl (unknownStep fs) (keyMappings.foldl (knownStep fs) acc)) "customerId" =
      getKey acc "customerId" := by
  rw [unknown_fold_untouched fs _ _ h, known_fold_customerId]

/-- Both loops together leave `orgUserId` as the earlier phases left
it, absent any of its spellings. -/
theorem loops_orgUserId (fs acc : JsFields)
    (h : ∀ p ∈ fs, unknownKeyEligible p.1 = true → lowerFirst p.1 ≠ "orgUserId")
    (h1 : hasKey fs "OrgUserId" = false) (h2 : hasKey fs "orgUserId" = false) :
    getKey (fs.foldl (unknownStep fs) (keyMappings.foldl (knownStep fs) acc)) "orgUserId" =
      getKey acc "orgUserId" := by
  rw [unknown_fold_untouched fs _ _ h, known_fold_orgUserId fs _ h1 h2]

/-- C5 (amended): under `customer-email-verification`, a **truthy**
value derived from `Id` takes precedence over an explicit `customerId`
key and is never overwritten; and when no `Id`/`id` key is present, the
explicit `customerId` is copied across.  (Truthiness is forced: the
source guards the copy with `!transformed.customerId`, so a falsy
derived value **is** overwritten — see the counterexample and C10.) -/
theorem C5_id_precedence :
    (∀ (fs : JsFields) (X Y : Json), truthy X = true →
      getKey fs "Id" = some X →
      getKey fs "customerId" = some Y →
      (∀ p ∈ fs, p.1 ≠ "customerId" → lowerFirst p.1 ≠ "customerId") →
      getKey (transformObj fs (some .customerEmailVerification)) "customerId" = some X) ∧
    (∀ (fs : JsFields) (Y : Json),
      hasKey fs "Id" = false → hasKey fs "id" = false →
      getKey fs "customerId" = some Y →
      (∀ p ∈ fs, p.1 ≠ "customerId" → lowerFirst p.1 ≠ "customerId") →
      getKey (transformObj fs (some .customerEmailVerification)) "customerId" = some Y) := by
  constructor
  · intro fs X Y hX hIdX hY hnoC
    have ht1 : idPhase fs (some .customerEmailVerification) = [("customerId", X)] :=
      idPhase_eq_of_id (some .customerEmailVerification) hX (Or.inl hIdX)
    have hgp : getProp [("customerId", X)] "customerId" = X := by
      simp [getProp, getKey]
    have hcopy : copyPhase fs [("customerId", X)] = [("customerId", X)] := by
      rw [copyPhase, hgp, hX]
      simp
    rw [transformObj_phases, ht1, hcopy, loops_customerId fs _ (eligible_frame_customerId hnoC)]
    simp [getKey]
  · intro fs Y h1 h2 hY hnoC
    have ht1 : idPhase fs (some .customerEmailVerification) = [] := by
      simp [idPhase, h1, h2]
    have hk : hasKey fs "customerId" = true := by
      rw [hasKey, hY]
      rfl
    have hcopy : copyPhase fs ([] : JsFields) = [("customerId", Y)] := by
      rw [copyPhase, hk]
      have : getProp ([] : JsFields) "customerId" = .undef := rfl
      rw [this]
      have : getProp fs "customerId" = Y := by rw [getProp, hY]; rfl
      rw [this]
      rfl
    rw [transformObj_phases, ht1, hcopy, loops_customerId fs _ (eligible_frame_customerId hnoC)]
    simp [getKey]

/-- C5 witness at concrete payloads (one per conjunct). -/
theorem C5_id_precedence_witness :
    getKey (transformObj [("Id", Json.str "X1"), ("customerId", Json.str "Y1")]
      (some .customerEmailVerification)) "customerId" = some (Json.str "X1") ∧
    getKey (transformObj [("customerId", Json.str "Y2")]
      (some .customerEmailVerification)) "customerId" = some (Json.str "Y2") :=
  ⟨C5_id_precedence.1 [("Id", Json.str "X1"), ("customerId", Json.str "Y1")]
      (Json.str "X1") (Json.str "Y1") (by decide) (by decide) (by decide) (by decide),
   C5_id_precedence.2 [("customerId", Json.str "Y2")] (Json.str "Y2")
      (by decide) (by decide) (by decide) (by decide)⟩

/-- C5 counterexample: with a falsy `Id = 0` and explicit
`customerId = "Y"`, the explicit key wins, refuting the unamended "`Id`
wins and is never overwritten". -/
theorem C5_counterexample :
    getKey (transformObj [("Id", Json.num 0), ("customerId", Json.str "Y")]
      (some .customerEmailVerification)) "customerId" ≠ some (Json.num 0) := by decide

/-- C10 (confirmed): with both `Id` and `id` present, the derived value
is `Id`'s exactly when that value is truthy, else `id`'s (`data.Id ||
data.id`); and a falsy derived value is overwritten by a co-present
explicit `customerId` (`!transformed.customerId` is a truthiness test,
not a presence test). -/
theorem C10_truthiness_resolution (fs : JsFields) (a b y : Json)
    (hIda : getKey fs "Id" = some a) (hidb : getKey fs "id" = some b) :
    ((∀ p ∈ fs, lowerFirst p.1 ≠ "orgUserId") →
      getKey (transformObj fs (some .userSignupConfirm)) "orgUserId" =
        some (if truthy a then a else b)) ∧
    (truthy a = false → truthy b = false →
      getKey fs "customerId" = some y →
      (∀ p ∈ fs, p.1 ≠ "customerId" → lowerFirst p.1 ≠ "customerId") →
      getKey (transformObj fs (some .customerEmailVerification)) "customerId" = some y) := by
  have hcond : (hasKey fs "Id" || hasKey fs "id") = true := by
    rw [Bool.or_eq_true]
    exact Or.inl (by rw [hasKey, hIda]; rfl)
  constructor
  · intro hno
    have ht1 : idPhase fs (some .userSignupConfirm) =
        [("orgUserId", if truthy a then a else b)] := by
      simp only [idPhase, hcond, if_true, getProp, hIda, hidb, Option.getD_some, setKey]
    have hOU : hasKey fs "OrgUserId" = false :=
      hasKey_false_of_no_mem (fun v hv => absurd rfl (hno _ hv))
    have hou : hasKey fs "orgUserId" = false :=
      hasKey_false_of_no_mem (fun v hv => absurd rfl (hno _ hv))
    rw [transformObj_phases, ht1,
        loops_orgUserId fs _ (fun p hp _ => hno p hp) hOU hou,
        copyPhase_getKey_ne _ _ _ (by decide)]
    simp [getKey]
  · intro ha hb hy hnoC
    have ht1 : idPhase fs (some .customerEmailVerification) = [("customerId", b)] := by
      simp only [idPhase, hcond, if_true, getProp, hIda, hidb, Option.getD_some, ha,
        Bool.false_eq_true, if_false, setKey]
    have hk : hasKey fs "customerId" = true := by
      rw [hasKey, hy]
      rfl
    have hcopy : copyPhase fs [("customerId", b)] = [("customerId", y)] := by
      rw [copyPhase, hk]
      have hgp : getProp [("customerId", b)] "customerId" = b := by simp [getProp, getKey]
      rw [hgp, hb]
      have : getProp fs "customerId" = y := by rw [getProp, hy]; rfl
      rw [this]
      simp [setKey]
    rw [transformObj_phases, ht1, hcopy,
        loops_customerId fs _ (eligible_frame_customerId hnoC)]
    simp [getKey]

/-- C10 witness: `Id = ""` (falsy), `id = 0` (falsy), explicit
`customerId = "Y"`; the derived value is `id`'s, and under the customer
flow the explicit `customerId` overwrites the falsy derived value. -/
theorem C10_truthiness_resolution_witness :
    getKey (transformObj [("Id", Json.str ""), ("id", Json.num 0), ("customerId", Json.str "Y")]
      (some .userSignupConfirm)) "orgUserId" = some (Json.num 0) ∧
    getKey (transformObj [("Id", Json.str ""), ("id", Json.num 0), ("customerId", Json.str "Y")]
      (some .customerEmailVerification)) "customerId" = some (Json.str "Y") := by
  have h := C10_truthiness_resolution
    [("Id", Json.str ""), ("id", Json.num 0), ("customerId", Json.str "Y")]
    (Json.str "") (Json.num 0) (Json.str "Y") (by decide) (by decide)
  exact ⟨h.1 (by decide), h.2 (by decide) (by decide) (by decide) (by decide)⟩

/-- C7 (amended): a mapping-table key carrying JSON `null` binds the
canonical key to `undefined` in the normalized output, provided no other
payload field feeds the same canonical key (no other firing table entry
targets it, and no eligible unknown key lower-cases to it — otherwise a
later write overwrites the `undefined`).  The key is therefore
**present** (refuting the claim's "absent"), its value is `undefined`,
and an optional field of that name validates as unset: `runField`
returns no issue and drops the field. -/
theorem C7_null_becomes_undefined (fs : JsFields) (t : Option RegistrationType)
    (ext int : String) (hmem : (ext, int) ∈ keyMappings)
    (hval : getKey fs ext = some Json.null)
    (honly : ∀ p ∈ keyMappings, p.2 = int → p.1 = ext ∨ hasKey fs p.1 = false)
    (hunk : ∀ p ∈ fs, unknownKeyEligible p.1 = true → lowerFirst p.1 ≠ int) :
    getKey (transformObj fs t) int = some Json.undef ∧
    hasKey (transformObj fs t) int = true ∧
    ∀ f : FieldSpec, f.key = int → f.optional = true →
      runField (transformObj fs t) f = ([], none) := by
  have hext : hasKey fs ext = true := by
    rw [hasKey, hval]
    rfl
  have hknown : getKey (keyMappings.foldl (knownStep fs) (copyPhase fs (idPhase fs t))) int =
      some Json.undef := by
    rcases known_fold_getKey_char fs keyMappings (copyPhase fs (idPhase fs t)) int with
      ⟨-, hall⟩ | ⟨e, hmem2, hhk, heq⟩
    · rw [hall (ext, int) hmem rfl] at hext
      cases hext
    · rcases honly (e, int) hmem2 rfl with he | he
      · have he2 : e = ext := he
        rw [heq, he2]
        rw [show getProp fs ext = Json.null from by rw [getProp, hval]; rfl]
        rfl
      · have he2 : hasKey fs e = false := he
        rw [he2] at hhk
        cases hhk
  have hget : getKey (transformObj fs t) int = some Json.undef := by
    rw [transformObj_phases, unknown_fold_untouched fs _ _ hunk]
    exact hknown
  have hgp : getProp (transformObj fs t) int = Json.undef := by
    rw [getProp, hget]
    rfl
  refine ⟨hget, ?_, ?_⟩
  · rw [hasKey, hget]
    rfl
  · intro f hkey hopt
    rw [runField, hkey, hgp]
    change (if f.optional = true then (([], none) : List ZodIssue × Option (String × Json))
      else ([⟨[int], "Required"⟩], none)) = ([], none)
    rw [if_pos hopt]

/-- C7 witness: `OrgUserId = null` under `user-signup-confirm` leaves
`orgUserId` present and bound to `undefined`, and the schema's optional
`orgUserId` field validates it as unset. -/
theorem C7_null_becomes_undefined_witness :
    getKey (transformObj [("OrgUserId", Json.null)] (some .userSignupConfirm)) "orgUserId" =
      some Json.undef ∧
    hasKey (transformObj [("OrgUserId", Json.null)] (some .userSignupConfirm)) "orgUserId" =
      true ∧
    runField (transformObj [("OrgUserId", Json.null)] (some .userSignupConfirm))
      ⟨"orgUserId", true, false, [.uuid "Organization User ID must be a valid UUID"]⟩ =
      ([], none) := by
  have h := C7_null_becomes_undefined [("OrgUserId", Json.null)] (some .userSignupConfirm)
    "OrgUserId" "orgUserId" (by decide) (by decide) (by decide) (by decide)
  exact ⟨h.1, h.2.1, h.2.2 _ rfl rfl⟩

/-- C7 counterexample: the canonical key is **not** absent — `Email =
null` yields an `email` key (bound to `undefined`), refuting "the
normalized output does not contain the corresponding canonical key at
all". -/
theorem C7_counterexample :
    hasKey (transformObj [("Email", Json.null)] (some .forgotPassword)) "email" = true := by
  decide

/-! ### Idempotence (C3): shape of normalized output -/

theorem customerId_not_a_key : ∀ p ∈ keyMappings, p.1 ≠ "customerId" := by decide

theorem inKeyMappings_exists {k : String} (h : inKeyMappings k = true) :
    ∃ m, (k, m) ∈ keyMappings := by
  rw [inKeyMappings, List.any_eq_true] at h
  obtain ⟨p, hp, he⟩ := h
  rw [decide_eq_true_iff] at he
  exact ⟨p.2, by rw [← he, Prod.mk.eta]; exact hp⟩

theorem mem_idPhase {fs : JsFields} {t : Option RegistrationType} {q : String × Json}
    (h : q ∈ idPhase fs t) : q.1 = "customerId" ∨ q.1 = "orgUserId" := by
  rw [idPhase] at h
  by_cases hc : (hasKey fs "Id" || hasKey fs "id") = true
  · rw [if_pos hc] at h
    cases t with
    | none =>
      simp only [setKey, List.mem_singleton] at h
      left
      rw [h]
    | some rt =>
      cases rt with
      | userInviteConfirm =>
        simp only [setKey, List.mem_singleton] at h
        right
        rw [h]
      | userSignupConfirm =>
        simp only [setKey, List.mem_singleton] at h
        right
        rw [h]
      | customerEmailVerification =>
        simp only [setKey, List.mem_singleton] at h
        left
        rw [h]
      | forgotPassword =>
        simp only [setKey, List.mem_singleton] at h
        left
        rw [h]
  · rw [if_neg hc] at h
    cases h

theorem mem_copyPhase {data acc : JsFields} {q : String × Json}
    (h : q ∈ copyPhase data acc) : q ∈ acc ∨ q.1 = "customerId" := by
  rw [copyPhase] at h
  by_cases hc : (hasKey data "customerId" && !truthy (getProp acc "customerId")) = true
  · rw [if_pos hc] at h
    rcases mem_setKey h with h2 | h2
    · exact Or.inl h2
    · right
      rw [h2]
  · rw [if_neg hc] at h
    exact Or.inl h

/-- Shape of every field the normalizer emits: the key is a `lowerFirst`
fixed point, never `Id`/`id`, and only the two identifier keys can carry
JSON `null`. -/
theorem transformObj_shape {fs : JsFields} {t : Option RegistrationType} {q : String × Json}
    (h : q ∈ transformObj fs t) :
    lowerFirst q.1 = q.1 ∧ q.1 ≠ "Id" ∧ q.1 ≠ "id" ∧
      (q.2 = .null → q.1 = "customerId" ∨ q.1 = "orgUserId") := by
  rw [transformObj_phases] at h
  rcases mem_unknown_fold h with h2 | ⟨p, _, hel, he⟩
  · rcases mem_known_fold h2 with h3 | ⟨p, hp, _, he⟩
    · rcases mem_copyPhase h3 with h4 | h4
      · rcases mem_idPhase h4 with h5 | h5
        · rw [h5]
          exact ⟨by decide, by decide, by decide, fun _ => Or.inl rfl⟩
        · rw [h5]
          exact ⟨by decide, by decide, by decide, fun _ => Or.inr rfl⟩
      · rw [h4]
        exact ⟨by decide, by decide, by decide, fun _ => Or.inl rfl⟩
    · rw [he]
      refine ⟨(target_facts _ hp).1, (id_not_a_target _ hp).2, (id_not_a_target _ hp).1, ?_⟩
      intro hn
      exact absurd hn (nullToUndef_ne_null _)
  · rw [he]
    refine ⟨lowerFirst_idem _, lowerFirst_ne_Id _, ?_, ?_⟩
    · intro hlid
      rcases lowerFirst_eq_id hlid with h5 | h5 <;> rw [h5] at hel <;>
        exact absurd hel (by decide)
    · intro hn
      exact absurd hn (nullToUndef_ne_null _)

theorem keysNodup_idPhase (fs : JsFields) (t : Option RegistrationType) :
    keysNodup (idPhase fs t) := by
  rw [idPhase]
  by_cases hc : (hasKey fs "Id" || hasKey fs "id") = true
  · rw [if_pos hc]
    cases t with
    | none => simp [keysNodup, setKey]
    | some rt => cases rt <;> simp [keysNodup, setKey]
  · rw [if_neg hc]
    simp [keysNodup]

theorem keysNodup_copyPhase (data acc : JsFields) (h : keysNodup acc) :
    keysNodup (copyPhase data acc) := by
  rw [copyPhase]
  by_cases hc : (hasKey data "customerId" && !truthy (getProp acc "customerId")) = true
  · rw [if_pos hc]
    exact keysNodup_setKey _ _ h
  · rw [if_neg hc]
    exact h

theorem keysNodup_transformObj (fs : JsFields) (t : Option RegistrationType) :
    keysNodup (transformObj fs t) := by
  rw [transformObj_phases]
  exact keysNodup_unknown_fold _
    (keysNodup_known_fold _ (keysNodup_copyPhase _ _ (keysNodup_idPhase fs t)))

/-- A payload that is already in normalized shape (keys are `lowerFirst`
fixed points, no `Id`/`id`, `null` at most at `customerId`, keys
distinct) is a fixed point of the normalizer, property for property. -/
theorem transform_normalized_fixed (q : JsFields) (t : Option RegistrationType)
    (hsh : ∀ p ∈ q, lowerFirst p.1 = p.1 ∧ p.1 ≠ "Id" ∧ p.1 ≠ "id" ∧
      (p.2 = .null → p.1 = "customerId"))
    (hnd : keysNodup q) :
    ∀ k, getKey (transformObj q t) k = getKey q k := by
  intro k
  have hId : hasKey q "Id" = false :=
    hasKey_false_of_no_mem (fun v hv => (hsh _ hv).2.1 rfl)
  have hid : hasKey q "id" = false :=
    hasKey_false_of_no_mem (fun v hv => (hsh _ hv).2.2.1 rfl)
  have ht1 : idPhase q t = [] := by
    simp [idPhase, hId, hid]
  rw [transformObj_phases, ht1]
  -- the no-such-key direction, shared by the residual cases below
  have hnone : ∀ k2, k2 ≠ "customerId" →
      (∀ p ∈ q, unknownKeyEligible p.1 = true → lowerFirst p.1 ≠ k2) →
      (∀ p ∈ keyMappings, p.2 = k2 → hasKey q p.1 = false) →
      getKey q k2 = none := by
    intro k2 hk2 hall hall2
    cases hqk : getKey q k2 with
    | none => rfl
    | some w =>
      exfalso
      have hmem := getKey_eq_some_mem hqk
      have hshk := hsh _ hmem
      by_cases hin : inKeyMappings k2 = true
      · obtain ⟨m, hm⟩ := inKeyMappings_exists hin
        have hmk : m = k2 := lower_spelling_is_identity _ hm hshk.1
        have := hall2 (k2, m) hm hmk
        rw [hasKey, hqk] at this
        cases this
      · have hinf : inKeyMappings k2 = false := by
          cases hb : inKeyMappings k2
          · rfl
          · exact absurd hb hin
        have hel : unknownKeyEligible k2 = true := by
          simp only [unknownKeyEligible, hinf, Bool.not_false, Bool.true_and,
            Bool.and_eq_true, bne_iff_ne, ne_eq]
          exact ⟨⟨hshk.2.1, hshk.2.2.1⟩, hk2⟩
        exact hall (k2, w) hmem hel hshk.1
  rcases unknown_fold_getKey_char q q
      (keyMappings.foldl (knownStep q) (copyPhase q [])) k with
    ⟨hequ, hallu⟩ | ⟨e, v, hmem, hel, hlf, hequ⟩
  · rw [hequ]
    rcases known_fold_getKey_char q keyMappings (copyPhase q []) k with
      ⟨heqk, hallk⟩ | ⟨e, hmem, hhk, heqk⟩
    · rw [heqk]
      -- the copy phase over the empty accumulator
      cases hck : hasKey q "customerId" with
      | true =>
        have hcopy : copyPhase q [] = [("customerId", getProp q "customerId")] := by
          rw [copyPhase, hck]
          rfl
        rw [hcopy]
        by_cases hk : k = "customerId"
        · rw [hk]
          simp only [getKey, if_pos rfl]
          obtain ⟨w, hw⟩ := hasKey_exists_mem hck
          rw [getProp, getKey_of_mem_nodup hnd hw]
          rfl
        · have hne : ¬("customerId" = k) := fun e2 => hk e2.symm
          have hgn : getKey [("customerId", getProp q "customerId")] k = none := by
            simp [getKey, hne]
          rw [hgn, hnone k hk hallu hallk]
      | false =>
        have hcopy : copyPhase q [] = [] := by
          rw [copyPhase, hck]
          rfl
        rw [hcopy]
        by_cases hk : k = "customerId"
        · subst hk
          cases hq2 : getKey q "customerId" with
          | none => rfl
          | some w =>
            rw [hasKey, hq2] at hck
            simp at hck
        · rw [show getKey ([] : JsFields) k = none from rfl, hnone k hk hallu hallk]
    · -- a mapping entry fired: its spelling is an internal key of `q`
      obtain ⟨w, hw⟩ := hasKey_exists_mem hhk
      have hshk := hsh _ hw
      have hlf1 : lowerFirst e = e := hshk.1
      have hek : k = e := lower_spelling_is_identity (e, k) hmem hlf1
      have hgw : getKey q e = some w := getKey_of_mem_nodup hnd hw
      have hwnn : w ≠ .null := by
        intro hn
        have hc2 : e = "customerId" := hshk.2.2.2 hn
        exact customerId_not_a_key _ hmem hc2
      rw [heqk, hek, getProp, hgw, Option.getD_some]
      rw [show nullToUndef w = w from by rw [nullToUndef, if_neg hwnn]]
  · -- an eligible payload key fired in the unknown loop
    have hshk := hsh _ hmem
    have hlf1 : lowerFirst e = e := hshk.1
    have hek : e = k := hlf1.symm.trans hlf
    have hgv : getKey q e = some v := getKey_of_mem_nodup hnd hmem
    have hvnn : v ≠ .null := by
      intro hn
      have hc2 : e = "customerId" := hshk.2.2.2 hn
      rw [hc2] at hel
      exact absurd hel (by decide)
    rw [hequ, ← hek, getProp, hgv, Option.getD_some]
    rw [show nullToUndef v = v from by rw [nullToUndef, if_neg hvnn]]

/-- C3 (amended): normalization is idempotent as a key/value mapping
(payload equality is property-wise, per the data model's
"insertion order irrelevant"), **provided** the first pass did not bind
`orgUserId` to JSON `null` — re-normalizing converts such a `null` to
`undefined` because `orgUserId` is itself a mapping-table key, which is
the one failure (see the counterexample). -/
theorem C3_normalize_idempotent (fs : JsFields) (t : Option RegistrationType)
    (horg : getKey (transformObj fs t) "orgUserId" ≠ some Json.null) :
    ∀ k, getKey (transformObj (transformObj fs t) t) k = getKey (transformObj fs t) k := by
  apply transform_normalized_fixed
  · intro p hp
    have hs := transformObj_shape hp
    refine ⟨hs.1, hs.2.1, hs.2.2.1, ?_⟩
    intro hn
    rcases hs.2.2.2 hn with h | h
    · exact h
    · exfalso
      apply horg
      have hm2 : ("orgUserId", Json.null) ∈ transformObj fs t := by
        rw [← h, ← hn, Prod.mk.eta]
        exact hp
      exact getKey_of_mem_nodup (keysNodup_transformObj fs t) hm2
  · exact keysNodup_transformObj fs t

/-- C3 witness: a fully populated signup payload, checked at the
`orgUserId` property. -/
theorem C3_normalize_idempotent_witness :
    getKey (transformObj
        (transformObj [("Email", Json.str "a@b.com"), ("Id", Json.str "81b9582e")]
          (some .userSignupConfirm))
        (some .userSignupConfirm)) "orgUserId" =
      getKey (transformObj [("Email", Json.str "a@b.com"), ("Id", Json.str "81b9582e")]
        (some .userSignupConfirm)) "orgUserId" :=
  C3_normalize_idempotent [("Email", Json.str "a@b.com"), ("Id", Json.str "81b9582e")]
    (some .userSignupConfirm) (by decide) "orgUserId"

/-- C3 counterexample: `\x7b"id": null\x7d` under `user-signup-confirm`
normalizes to `orgUserId = null`, but normalizing again gives
`orgUserId = undefined` — so idempotence fails as stated, even
property-wise. -/
theorem C3_counterexample :
    getKey (transformObj (transformObj [("id", Json.null)] (some .userSignupConfirm))
        (some .userSignupConfirm)) "orgUserId" ≠
      getKey (transformObj [("id", Json.null)] (some .userSignupConfirm)) "orgUserId" := by
  decide

/-! ### Claim C2: the decoder does not reject non-object JSON -/

/-- C2 (code bug): the data parameter `"Imp1c3QgYSBzdHJpbmci"` percent-,
base64- and JSON-decodes cleanly to the JSON **string**
`"just a string"`, yet `decodeDataParam` returns it as a success — the
`INVALID_DATA` guard the spec mandates for non-object payloads is
absent from the code (`transformDataKeys` passes non-objects through
unchanged), and the pipeline only fails later at schema validation with
`VALIDATION_ERROR`. -/
theorem C2_decoder_accepts_nonobject :
    decodeDataParam "Imp1c3QgYSBzdHJpbmci" (some .customerEmailVerification) =
      .success (.str "just a string") := by decide

/-! ### Claim C8: all-fields-at-once validation -/

/-- C8 (amended): whenever the selected schema produces a non-empty
issue list, `validateData` returns a single `VALIDATION_ERROR` whose
`details` is the full ordered issue list and whose `message` is the
fixed prefix `"Data validation failed: "` followed by the joined
`path: message` pairs. -/
theorem C8_validation_aggregates (registrationType : RegistrationType) (data : Json)
    (issues : List ZodIssue) (hne : issues ≠ [])
    (hiss : zodIssuesFor registrationType data = issues) :
    validateData registrationType data = .failure
      { code := .VALIDATION_ERROR,
        message := "Data validation failed: " ++
          String.intercalate ", " (issues.map formatIssue),
        details := some (.issues issues) } := by
  cases hz : zodParse (schemaFor registrationType) data with
  | ok v =>
    rw [zodIssuesFor, hz] at hiss
    exact absurd hiss.symm hne
  | error is =>
    rw [zodIssuesFor, hz] at hiss
    subst hiss
    unfold validateData
    rw [hz]

/-- C8 witness: the empty payload under `forgot-password` fails on both
required fields, and both issues are reported. -/
theorem C8_validation_aggregates_witness :
    validateData .forgotPassword (.obj []) = .failure
      { code := .VALIDATION_ERROR,
        message := "Data validation failed: " ++ String.intercalate ", "
          (([⟨["username"], "Required"⟩, ⟨["email"], "Required"⟩] : List ZodIssue).map
            formatIssue),
        details := some (.issues [⟨["username"], "Required"⟩, ⟨["email"], "Required"⟩]) } :=
  C8_validation_aggregates .forgotPassword (.obj [])
    [⟨["username"], "Required"⟩, ⟨["email"], "Required"⟩] (by decide) (by decide)

/-- C8 counterexample (to the unamended message wording): the top-level
message is not the bare joined `path: message` pairs — the code
prepends `"Data validation failed: "`. -/
theorem C8_counterexample :
    validateData .forgotPassword (.obj []) ≠ .failure
      { code := .VALIDATION_ERROR,
        message := "username: Required, email: Required",
        details := some (.issues [⟨["username"], "Required"⟩, ⟨["email"], "Required"⟩]) } := by
  decide

/-! ### Claims C6 and C9: the structural parser and the pipeline -/

/-- The error code of a result, if it failed. -/
def errorCodeOf {α : Type} : ParseResult α → Option ErrorCode
  | .success _ => none
  | .failure e => some e.code

/-- With a parsed URL, the pipeline reduces to the path-split match. -/
theorem parseRegistrationUrl_eq_split (url : String) (u : UrlObj)
    (hu : urlParse url = some u) :
    parseRegistrationUrl url =
      (match (splitOnStr "/" u.pathname).filter (fun p => p ≠ "") with
       | [organization, typeSegment, token] => parseTriple u organization typeSegment token
       | _ => .failure invalidFormatError) := by
  unfold parseRegistrationUrl
  rw [hu]

/-- With a parsed URL and a three-segment path, the pipeline is
`parseTriple`. -/
theorem parseRegistrationUrl_eq_triple (url : String) (u : UrlObj) (org ty tok : String)
    (hu : urlParse url = some u)
    (hl : (splitOnStr "/" u.pathname).filter (fun p => p ≠ "") = [org, ty, tok]) :
    parseRegistrationUrl url = parseTriple u org ty tok := by
  rw [parseRegistrationUrl_eq_split url u hu, hl]

/-- C6 (confirmed): any URL whose path does not split into exactly
three non-empty segments fails with `INVALID_URL` (as does a string the
URL constructor rejects); with three segments the parser checks
organization, then flow-type membership, then token shape, in that
order, returning `INVALID_URL`, `INVALID_URL`, `INVALID_TOKEN`
respectively for the first failure; and a structurally valid URL with
no `data` query parameter fails with `MISSING_PARAM`. -/
theorem C6_structural_checks (url : String) :
    (urlParse url = none → errorCodeOf (parseRegistrationUrl url) = some .INVALID_URL) ∧
    (∀ u l, urlParse url = some u →
      (splitOnStr "/" u.pathname).filter (fun p => p ≠ "") = l →
      (l.length ≠ 3 → errorCodeOf (parseRegistrationUrl url) = some .INVALID_URL) ∧
      (∀ org ty tok, l = [org, ty, tok] →
        (isValidOrganization org = false →
          errorCodeOf (parseRegistrationUrl url) = some .INVALID_URL) ∧
        (isValidOrganization org = true → isValidRegistrationType ty = false →
          errorCodeOf (parseRegistrationUrl url) = some .INVALID_URL) ∧
        (∀ rt, isValidOrganization org = true → parseRegistrationType ty = some rt →
          isValidUUID tok = false →
          errorCodeOf (parseRegistrationUrl url) = some .INVALID_TOKEN) ∧
        (∀ rt, isValidOrganization org = true → parseRegistrationType ty = some rt →
          isValidUUID tok = true → searchParamsGet u.search "data" = none →
          errorCodeOf (parseRegistrationUrl url) = some .MISSING_PARAM))) := by
  refine ⟨?_, ?_⟩
  · intro h0
    unfold parseRegistrationUrl
    rw [h0]
    rfl
  · intro u l hu hl
    refine ⟨?_, ?_⟩
    · intro hlen
      rw [parseRegistrationUrl_eq_split url u hu, hl]
      rcases l with _ | ⟨a, _ | ⟨b, _ | ⟨c, _ | ⟨d, r⟩⟩⟩⟩
      · rfl
      · rfl
      · rfl
      · exact absurd rfl hlen
      · rfl
    · intro org ty tok hltriple
      subst hltriple
      have hred := parseRegistrationUrl_eq_triple url u org ty tok hu hl
      refine ⟨?_, ?_, ?_, ?_⟩
      · intro ho
        rw [hred]
        simp [parseTriple, ho, errorCodeOf, invalidOrgError]
      · intro ho hty
        have hty2 : parseRegistrationType ty = none := by
          rw [isValidRegistrationType] at hty
          cases hp : parseRegistrationType ty
          · rfl
          · rw [hp] at hty
            simp at hty
        rw [hred]
        simp [parseTriple, ho, hty2, errorCodeOf, invalidTypeError]
      · intro rt ho hty htok
        rw [hred]
        simp [parseTriple, ho, hty, htok, errorCodeOf, invalidTokenError]
      · intro rt ho hty htok hd
        rw [hred]
        simp [parseTriple, ho, hty, htok, hd, errorCodeOf, missingParamError]

/-- C6 witness: one concrete URL per clause (unparseable, two-segment
path, bad organization, bad flow type, bad token, missing `data`). -/
theorem C6_structural_checks_witness :
    errorCodeOf (parseRegistrationUrl "nonsense") = some .INVALID_URL ∧
    errorCodeOf (parseRegistrationUrl "https://h/acme/user-invite-confirm?data=x") =
      some .INVALID_URL ∧
    errorCodeOf (parseRegistrationUrl
      "https://h/a/user-invite-confirm/550e8400-e29b-41d4-a716-446655440000?data=x") =
      some .INVALID_URL ∧
    errorCodeOf (parseRegistrationUrl
      "https://h/acme/bogus-flow/550e8400-e29b-41d4-a716-446655440000?data=x") =
      some .INVALID_URL ∧
    errorCodeOf (parseRegistrationUrl "https://h/acme/user-invite-confirm/not-a-uuid?data=x") =
      some .INVALID_TOKEN ∧
    errorCodeOf (parseRegistrationUrl
      "https://h/acme/user-invite-confirm/550e8400-e29b-41d4-a716-446655440000") =
      some .MISSING_PARAM := by
  refine ⟨(C6_structural_checks "nonsense").1 (by decide), ?_, ?_, ?_, ?_, ?_⟩
  · exact (((C6_structural_checks "https://h/acme/user-invite-confirm?data=x").2
      ⟨"/acme/user-invite-confirm", "data=x"⟩ ["acme", "user-invite-confirm"]
      (by decide) (by decide)).1 (by decide))
  · exact ((((C6_structural_checks
      "https://h/a/user-invite-confirm/550e8400-e29b-41d4-a716-446655440000?data=x").2
      ⟨"/a/user-invite-confirm/550e8400-e29b-41d4-a716-446655440000", "data=x"⟩
      ["a", "user-invite-confirm", "550e8400-e29b-41d4-a716-446655440000"]
      (by decide) (by decide)).2
      "a" "user-invite-confirm" "550e8400-e29b-41d4-a716-446655440000" rfl).1 (by decide))
  · exact ((((C6_structural_checks
      "https://h/acme/bogus-flow/550e8400-e29b-41d4-a716-446655440000?data=x").2
      ⟨"/acme/bogus-flow/550e8400-e29b-41d4-a716-446655440000", "data=x"⟩
      ["acme", "bogus-flow", "550e8400-e29b-41d4-a716-446655440000"]
      (by decide) (by decide)).2
      "acme" "bogus-flow" "550e8400-e29b-41d4-a716-446655440000" rfl).2.1
      (by decide) (by decide))
  · exact ((((C6_structural_checks
      "https://h/acme/user-invite-confirm/not-a-uuid?data=x").2
      ⟨"/acme/user-invite-confirm/not-a-uuid", "data=x"⟩
      ["acme", "user-invite-confirm", "not-a-uuid"]
      (by decide) (by decide)).2
      "acme" "user-invite-confirm" "not-a-uuid" rfl).2.2.1
      .userInviteConfirm (by decide) (by decide) (by decide))
  · exact ((((C6_structural_checks
      "https://h/acme/user-invite-confirm/550e8400-e29b-41d4-a716-446655440000").2
      ⟨"/acme/user-invite-confirm/550e8400-e29b-41d4-a716-446655440000", ""⟩
      ["acme", "user-invite-confirm", "550e8400-e29b-41d4-a716-446655440000"]
      (by decide) (by decide)).2
      "acme" "user-invite-confirm" "550e8400-e29b-41d4-a716-446655440000" rfl).2.2.2
      .userInviteConfirm (by decide) (by decide) (by decide) (by decide))

/-- C9 (confirmed): the pipeline is total — every input yields a
`ParseResult` value — and error-transparent: when the decoder or the
validator fails, the pipeline returns that stage's `ParseError` value
unchanged. -/
theorem C9_pipeline_transparent :
    (∀ url, (∃ v, parseRegistrationUrl url = .success v) ∨
      (∃ e, parseRegistrationUrl url = .failure e)) ∧
    (∀ url u org ty tok rt d e,
      urlParse url = some u →
      (splitOnStr "/" u.pathname).filter (fun p => p ≠ "") = [org, ty, tok] →
      isValidOrganization org = true →
      parseRegistrationType ty = some rt →
      isValidUUID tok = true →
      searchParamsGet u.search "data" = some d →
      d ≠ "" →
      decodeDataParam d (some rt) = .failure e →
      parseRegistrationUrl url = .failure e) ∧
    (∀ url u org ty tok rt d j e,
      urlParse url = some u →
      (splitOnStr "/" u.pathname).filter (fun p => p ≠ "") = [org, ty, tok] →
      isValidOrganization org = true →
      parseRegistrationType ty = some rt →
      isValidUUID tok = true →
      searchParamsGet u.search "data" = some d →
      d ≠ "" →
      decodeDataParam d (some rt) = .success j →
      validateData rt j = .failure e →
      parseRegistrationUrl url = .failure e) := by
  refine ⟨?_, ?_, ?_⟩
  · intro url
    cases parseRegistrationUrl url with
    | success v => exact Or.inl ⟨v, rfl⟩
    | failure e => exact Or.inr ⟨e, rfl⟩
  · intro url u org ty tok rt d e hu hl ho hty htok hd hne hdec
    rw [parseRegistrationUrl_eq_triple url u org ty tok hu hl]
    simp [parseTriple, ho, hty, htok, hd, hne, hdec]
  · intro url u org ty tok rt d j e hu hl ho hty htok hd hne hdec hval
    rw [parseRegistrationUrl_eq_triple url u org ty tok hu hl]
    simp [parseTriple, ho, hty, htok, hd, hne, hdec, hval]

/-- C9 witness: a link whose data parameter is invalid base64
(`DECODE_ERROR` surfaces unchanged), and a link whose payload is the
empty object (`VALIDATION_ERROR` surfaces unchanged). -/
theorem C9_pipeline_transparent_witness :
    parseRegistrationUrl
      "https://h/acme/forgot-password/550e8400-e29b-41d4-a716-446655440000?data=!!!" =
      .failure (decodeError "invalid base64 payload") ∧
    parseRegistrationUrl
      "https://h/acme/forgot-password/550e8400-e29b-41d4-a716-446655440000?data=e30=" =
      .failure
        { code := .VALIDATION_ERROR,
          message := "Data validation failed: username: Required, email: Required",
          details := some (.issues [⟨["username"], "Required"⟩, ⟨["email"], "Required"⟩]) } := by
  constructor
  · exact C9_pipeline_transparent.2.1
      "https://h/acme/forgot-password/550e8400-e29b-41d4-a716-446655440000?data=!!!"
      ⟨"/acme/forgot-password/550e8400-e29b-41d4-a716-446655440000", "data=!!!"⟩
      "acme" "forgot-password" "550e8400-e29b-41d4-a716-446655440000"
      .forgotPassword "!!!" (decodeError "invalid base64 payload")
      (by decide) (by decide) (by decide) (by decide) (by decide) (by decide) (by decide)
      (by decide)
  · exact C9_pipeline_transparent.2.2
      "https://h/acme/forgot-password/550e8400-e29b-41d4-a716-446655440000?data=e30="
      ⟨"/acme/forgot-password/550e8400-e29b-41d4-a716-446655440000", "data=e30="⟩
      "acme" "forgot-password" "550e8400-e29b-41d4-a716-446655440000"
      .forgotPassword "e30=" (.obj [])
      { code := .VALIDATION_ERROR,
        message := "Data validation failed: username: Required, email: Required",
        details := some (.issues [⟨["username"], "Required"⟩, ⟨["email"], "Required"⟩]) }
      (by decide) (by decide) (by decide) (by decide) (by decide) (by decide) (by decide)
      (by decide) (by decide)

/-! ### Claim C4: the codec round-trip, layer by layer

First UTF-8: decoding inverts encoding, one scalar value at a time. -/

theorem char_valid_nat (c : Char) : c.toNat < 55296 ∨ (57343 < c.toNat ∧ c.toNat < 1114112) :=
  c.valid

theorem utf8EncodeChar_ne_nil (c : Char) : utf8EncodeChar c ≠ [] := by
  rw [utf8EncodeChar]
  by_cases h1 : c.toNat < 128
  · rw [if_pos h1]
    exact List.cons_ne_nil _ _
  · rw [if_neg h1]
    by_cases h2 : c.toNat < 2048
    · rw [if_pos h2]
      exact List.cons_ne_nil _ _
    · rw [if_neg h2]
      by_cases h3 : c.toNat < 65536
      · rw [if_pos h3]
        exact List.cons_ne_nil _ _
      · rw [if_neg h3]
        exact List.cons_ne_nil _ _

theorem utf8EncodeChar_lt_256 (c : Char) : ∀ b ∈ utf8EncodeChar c, b < 256 := by
  intro b hb
  have hv := char_valid_nat c
  rw [utf8EncodeChar] at hb
  by_cases h1 : c.toNat < 128
  · rw [if_pos h1] at hb
    simp only [List.mem_singleton] at hb
    omega
  · rw [if_neg h1] at hb
    by_cases h2 : c.toNat < 2048
    · rw [if_pos h2] at hb
      simp only [List.mem_cons, List.not_mem_nil, or_false] at hb
      rcases hb with rfl | rfl <;> omega
    · rw [if_neg h2] at hb
      by_cases h3 : c.toNat < 65536
      · rw [if_pos h3] at hb
        simp only [List.mem_cons, List.not_mem_nil, or_false] at hb
        rcases hb with rfl | rfl | rfl <;> omega
      · rw [if_neg h3] at hb
        simp only [List.mem_cons, List.not_mem_nil, or_false] at hb
        rcases hb with rfl | rfl | rfl | rfl <;> omega

theorem utf8DecodeChar_encode (c : Char) (rest : List Nat) :
    utf8DecodeChar (utf8EncodeChar c ++ rest) = some (c, rest) := by
  have hv := char_valid_nat c
  by_cases h1 : c.toNat < 128
  · have he : utf8EncodeChar c = [c.toNat] := by
      rw [utf8EncodeChar, if_pos h1]
    rw [he, List.singleton_append]
    simp only [utf8DecodeChar.eq_def]
    rw [if_pos h1, Char.ofNat_toNat]
  · by_cases h2 : c.toNat < 2048
    · have he : utf8EncodeChar c = [192 + c.toNat / 64, 128 + c.toNat % 64] := by
        rw [utf8EncodeChar, if_neg h1, if_pos h2]
      rw [he]
      simp only [List.cons_append, List.nil_append]
      simp only [utf8DecodeChar.eq_def]
      rw [if_neg (by omega), if_neg (by omega), if_pos (by omega)]
      rw [if_pos (by simp only [isContByte, Bool.and_eq_true, decide_eq_true_iff]; omega)]
      rw [show (192 + c.toNat / 64 - 192) * 64 + (128 + c.toNat % 64 - 128) = c.toNat by omega]
      rw [Char.ofNat_toNat]
    · by_cases h3 : c.toNat < 65536
      · have he : utf8EncodeChar c =
            [224 + c.toNat / 4096, 128 + c.toNat / 64 % 64, 128 + c.toNat % 64] := by
          rw [utf8EncodeChar, if_neg h1, if_neg h2, if_pos h3]
        rw [he]
        simp only [List.cons_append, List.nil_append]
        simp only [utf8DecodeChar.eq_def]
        rw [if_neg (by omega), if_neg (by omega), if_neg (by omega), if_pos (by omega)]
        rw [if_pos (by
          simp only [isContByte, Bool.and_eq_true, Bool.or_eq_true, decide_eq_true_iff]
          omega)]
        rw [if_pos (by
          simp only [Bool.and_eq_true, Bool.or_eq_true, decide_eq_true_iff]
          omega)]
        rw [show (224 + c.toNat / 4096 - 224) * 4096 + (128 + c.toNat / 64 % 64 - 128) * 64 +
              (128 + c.toNat % 64 - 128) = c.toNat by omega]
        rw [Char.ofNat_toNat]
      · have he : utf8EncodeChar c =
            [240 + c.toNat / 262144, 128 + c.toNat / 4096 % 64,
             128 + c.toNat / 64 % 64, 128 + c.toNat % 64] := by
          rw [utf8EncodeChar, if_neg h1, if_neg h2, if_neg h3]
        have hub : c.toNat < 1114112 := by
          rcases hv with hv | hv
          · omega
          · omega
        rw [he]
        simp only [List.cons_append, List.nil_append]
        simp only [utf8DecodeChar.eq_def]
        rw [if_neg (by omega), if_neg (by omega), if_neg (by omega), if_neg (by omega),
            if_pos (by omega)]
        rw [if_pos (by
          simp only [isContByte, Bool.and_eq_true, Bool.or_eq_true, decide_eq_true_iff]
          omega)]
        rw [if_pos (by
          simp only [Bool.and_eq_true, Bool.or_eq_true, decide_eq_true_iff]
          omega)]
        rw [show (240 + c.toNat / 262144 - 240) * 262144 + (128 + c.toNat / 4096 % 64 - 128) *
              4096 + (128 + c.toNat / 64 % 64 - 128) * 64 + (128 + c.toNat % 64 - 128) =
              c.toNat by omega]
        rw [Char.ofNat_toNat]

theorem utf8EncodeList_length (cs : List Char) : cs.length ≤ (utf8EncodeList cs).length := by
  induction cs with
  | nil => simp [utf8EncodeList]
  | cons c rest ih =>
    rw [utf8EncodeList, List.flatMap_cons, List.length_append]
    have hne : (utf8EncodeChar c).length ≥ 1 :=
      List.length_pos.mpr (utf8EncodeChar_ne_nil c)
    rw [utf8EncodeList] at ih
    simp only [List.length_cons]
    omega

theorem utf8DecodeAux_encode (cs : List Char) : ∀ fuel, cs.length ≤ fuel →
    utf8DecodeAux fuel (utf8EncodeList cs) = some cs := by
  induction cs with
  | nil =>
    intro fuel _
    rw [show utf8EncodeList [] = [] from rfl]
    cases fuel <;> rfl
  | cons c rest ih =>
    intro fuel hf
    rw [utf8EncodeList, List.flatMap_cons]
    cases fuel with
    | zero => simp at hf
    | succ f =>
      have hne : utf8EncodeChar c ++ rest.flatMap utf8EncodeChar ≠ [] := by
        intro he
        exact utf8EncodeChar_ne_nil c (List.append_eq_nil.mp he).1
      cases hsh : utf8EncodeChar c ++ rest.flatMap utf8EncodeChar with
      | nil => exact absurd hsh hne
      | cons b bs =>
        rw [← hsh, utf8DecodeAux.eq_def]
        simp only [hsh]
        rw [← hsh, utf8DecodeChar_encode c (rest.flatMap utf8EncodeChar)]
        show Option.map (fun t => c :: t) (utf8DecodeAux f (utf8EncodeList rest)) =
          some (c :: rest)
        rw [ih f (by simpa using hf)]
        rfl

theorem utf8Decode_encode (cs : List Char) : utf8Decode (utf8EncodeList cs) = some cs :=
  utf8DecodeAux_encode cs _ (utf8EncodeList_length cs)


/-! Base64: decoding inverts encoding for byte lists. -/

theorem b64Index_b64Char : ∀ v, v < 64 → b64Index (b64Char v) = some v := by decide

theorem b64Char_ne_pad : ∀ v, b64Char v ≠ '=' := by
  intro v
  rw [b64Char, List.getD]
  cases hg : base64Alphabet.get? v with
  | none => simp [hg]
  | some x =>
    have hm : x ∈ base64Alphabet := List.get?_mem hg
    have : ∀ c ∈ base64Alphabet, c ≠ '=' := by decide
    simp [hg, this x hm]

theorem dropPadRev_append (c1 c2 : Char) (rs l : List Char) :
    dropPadRev (c1 :: c2 :: (rs ++ l)) = dropPadRev (c1 :: c2 :: rs) ++ l := by
  by_cases h1 : c1 = '='
  · by_cases h2 : c2 = '='
    · simp [dropPadRev, h1, h2]
    · simp [dropPadRev, h1, h2]
  · simp [dropPadRev, h1]
theorem stripPad_append (xs E : List Char) (h2 : 2 ≤ E.length) :
    stripPad (xs ++ E) = xs ++ stripPad E := by
  have hl : 2 ≤ E.reverse.length := by simpa using h2
  cases hrev : E.reverse with
  | nil => rw [hrev] at hl; simp at hl
  | cons f1 t =>
    cases t with
    | nil => rw [hrev] at hl; simp at hl
    | cons f2 fs =>
      rw [stripPad, stripPad, hrev]
      rw [List.reverse_append, hrev]
      rw [show f1 :: f2 :: fs ++ xs.reverse = f1 :: f2 :: (fs ++ xs.reverse) from rfl]
      rw [dropPadRev_append, List.reverse_append, List.reverse_reverse]
theorem base64EncodeBytes_length (bs : List Nat) (h : bs ≠ []) :
    4 ≤ (base64EncodeBytes bs).length := by
  match bs, h with
  | [b1], _ => simp [base64EncodeBytes]
  | [b1, b2], _ => simp [base64EncodeBytes]
  | b1 :: b2 :: b3 :: rest, _ => simp [base64EncodeBytes]

theorem stripPad_encode_cons (b1 b2 b3 : Nat) (rest : List Nat) :
    stripPad (base64EncodeBytes (b1 :: b2 :: b3 :: rest)) =
      b64Char (b1 / 4) :: b64Char (b1 % 4 * 16 + b2 / 16) ::
      b64Char (b2 % 16 * 4 + b3 / 64) :: b64Char (b3 % 64) ::
      stripPad (base64EncodeBytes rest) := by
  rw [base64EncodeBytes]
  cases hr : rest with
  | nil =>
    rw [show base64EncodeBytes [] = [] from rfl]
    rw [stripPad]
    simp only [List.reverse_cons, List.reverse_nil, List.nil_append, List.cons_append]
    rw [dropPadRev, if_neg (b64Char_ne_pad _)]
    simp [stripPad, dropPadRev]
  | cons x xs =>
    rw [← hr]
    have hne : rest ≠ [] := by rw [hr]; exact List.cons_ne_nil _ _
    rw [show (b64Char (b1 / 4) :: b64Char (b1 % 4 * 16 + b2 / 16) ::
        b64Char (b2 % 16 * 4 + b3 / 64) :: b64Char (b3 % 64) :: base64EncodeBytes rest) =
        [b64Char (b1 / 4), b64Char (b1 % 4 * 16 + b2 / 16),
         b64Char (b2 % 16 * 4 + b3 / 64), b64Char (b3 % 64)] ++ base64EncodeBytes rest from
      rfl]
    rw [stripPad_append _ _ (by have := base64EncodeBytes_length rest hne; omega)]
    rfl
theorem base64DecodeCore_cons4 (c1 c2 c3 c4 : Char) (rest : List Char) :
    base64DecodeCore (c1 :: c2 :: c3 :: c4 :: rest) =
      match b64Index c1, b64Index c2, b64Index c3, b64Index c4 with
      | some v1, some v2, some v3, some v4 =>
        (base64DecodeCore rest).map
          (fun t => (v1 * 4 + v2 / 16) :: (v2 % 16 * 16 + v3 / 4) :: (v3 % 4 * 64 + v4) :: t)
      | _, _, _, _ => none := rfl
theorem stripPad_encode_one (b1 : Nat) :
    stripPad (base64EncodeBytes [b1]) = [b64Char (b1 / 4), b64Char (b1 % 4 * 16)] := by
  rw [base64EncodeBytes, stripPad]
  simp only [List.reverse_cons, List.reverse_nil, List.nil_append, List.cons_append]
  rw [dropPadRev]
  simp [dropPadRev]

theorem stripPad_encode_two (b1 b2 : Nat) :
    stripPad (base64EncodeBytes [b1, b2]) =
      [b64Char (b1 / 4), b64Char (b1 % 4 * 16 + b2 / 16), b64Char (b2 % 16 * 4)] := by
  rw [base64EncodeBytes, stripPad]
  simp only [List.reverse_cons, List.reverse_nil, List.nil_append, List.cons_append]
  rw [dropPadRev, if_pos rfl, if_neg (b64Char_ne_pad _)]
  simp [dropPadRev]

theorem base64DecodeCore_encode : ∀ bs : List Nat, (∀ b ∈ bs, b < 256) →
    base64DecodeCore (stripPad (base64EncodeBytes bs)) = some bs := by
  intro bs
  induction bs using base64EncodeBytes.induct with
  | case1 => intro _; rfl
  | case2 b1 =>
    intro hb
    have h1 : b1 < 256 := hb b1 (by simp)
    rw [stripPad_encode_one]
    simp only [base64DecodeCore.eq_def]
    rw [b64Index_b64Char _ (by omega), b64Index_b64Char _ (by omega)]
    show some [b1 / 4 * 4 + b1 % 4 * 16 / 16] = some [b1]
    rw [show b1 / 4 * 4 + b1 % 4 * 16 / 16 = b1 from by omega]
  | case3 b1 b2 =>
    intro hb
    have h1 : b1 < 256 := hb b1 (by simp)
    have h2 : b2 < 256 := hb b2 (by simp)
    rw [stripPad_encode_two]
    simp only [base64DecodeCore.eq_def]
    rw [b64Index_b64Char _ (by omega), b64Index_b64Char _ (by omega),
        b64Index_b64Char _ (by omega)]
    show some [b1 / 4 * 4 + (b1 % 4 * 16 + b2 / 16) / 16,
      (b1 % 4 * 16 + b2 / 16) % 16 * 16 + b2 % 16 * 4 / 4] = some [b1, b2]
    rw [show b1 / 4 * 4 + (b1 % 4 * 16 + b2 / 16) / 16 = b1 from by omega,
        show (b1 % 4 * 16 + b2 / 16) % 16 * 16 + b2 % 16 * 4 / 4 = b2 from by omega]
  | case4 b1 b2 b3 rest ih =>
    intro hb
    have h1 : b1 < 256 := hb b1 (by simp)
    have h2 : b2 < 256 := hb b2 (by simp)
    have h3 : b3 < 256 := hb b3 (by simp)
    rw [stripPad_encode_cons]
    rw [base64DecodeCore_cons4]
    rw [b64Index_b64Char _ (by omega), b64Index_b64Char _ (by omega),
        b64Index_b64Char _ (by omega), b64Index_b64Char _ (by omega)]
    show (base64DecodeCore (stripPad (base64EncodeBytes rest))).map
      (fun t => (b1 / 4 * 4 + (b1 % 4 * 16 + b2 / 16) / 16) ::
        ((b1 % 4 * 16 + b2 / 16) % 16 * 16 + (b2 % 16 * 4 + b3 / 64) / 4) ::
        ((b2 % 16 * 4 + b3 / 64) % 4 * 64 + b3 % 64) :: t) = some (b1 :: b2 :: b3 :: rest)
    rw [ih (fun b hbm => hb b (by simp [hbm]))]
    rw [show b1 / 4 * 4 + (b1 % 4 * 16 + b2 / 16) / 16 = b1 from by omega,
        show (b1 % 4 * 16 + b2 / 16) % 16 * 16 + (b2 % 16 * 4 + b3 / 64) / 4 = b2 from by omega,
        show (b2 % 16 * 4 + b3 / 64) % 4 * 64 + b3 % 64 = b3 from by omega]
    rfl

theorem base64Decode_encode (bs : List Nat) (hb : ∀ b ∈ bs, b < 256) :
    base64Decode (base64EncodeBytes bs) = some bs :=
  base64DecodeCore_encode bs hb


/-! Percent-encoding: decoding inverts encoding on ASCII input, and base64 output is ASCII. -/

theorem hexDigitVal_upperHexChar : ∀ v, v < 16 → hexDigitVal (upperHexChar v) = some v := by
  decide

theorem uriUnreserved_ne_percent (c : Char) (h : isUriUnreserved c = true) : c ≠ '%' := by
  intro he
  rw [he] at h
  exact absurd h (by decide)

theorem percentEncodeChar_ascii (c : Char) (hc : c.toNat < 128) :
    percentEncodeChar c =
      if isUriUnreserved c then [c]
      else ['%', upperHexChar (c.toNat / 16), upperHexChar (c.toNat % 16)] := by
  rw [percentEncodeChar]
  by_cases h : isUriUnreserved c
  · rw [if_pos h, if_pos h]
  · rw [if_neg h, if_neg h]
    rw [show utf8EncodeChar c = [c.toNat] from by rw [utf8EncodeChar, if_pos hc]]
    rfl

theorem percentEncodeList_len (cs : List Char) : cs.length ≤ (percentEncodeList cs).length := by
  induction cs with
  | nil => simp [percentEncodeList]
  | cons c rest ih =>
    rw [percentEncodeList, List.flatMap_cons]
    rw [percentEncodeList] at ih
    have h1 : 1 ≤ (percentEncodeChar c).length := by
      rw [percentEncodeChar]
      by_cases h : isUriUnreserved c
      · rw [if_pos h]
        simp
      · rw [if_neg h]
        have := utf8EncodeChar_ne_nil c
        cases he : utf8EncodeChar c with
        | nil => exact absurd he this
        | cons b bs => simp [he]
    simp only [List.length_cons, List.length_append]
    omega

theorem percentDecodeAux_encode (cs : List Char) : ∀ fuel, (percentEncodeList cs).length ≤ fuel →
    (∀ c ∈ cs, c.toNat < 128) →
    percentDecodeAux fuel (percentEncodeList cs) = some cs := by
  induction cs with
  | nil =>
    intro fuel _ _
    cases fuel <;> rfl
  | cons c rest ih =>
    intro fuel hf hA
    have hc : c.toNat < 128 := hA c (by simp)
    have hrest : ∀ x ∈ rest, x.toNat < 128 := fun x hx => hA x (by simp [hx])
    rw [percentEncodeList, List.flatMap_cons, percentEncodeChar_ascii c hc]
    rw [percentEncodeList, List.flatMap_cons, percentEncodeChar_ascii c hc] at hf
    by_cases h : isUriUnreserved c
    · rw [if_pos h] at hf ⊢
      simp only [List.singleton_append] at hf ⊢
      cases fuel with
      | zero => simp at hf
      | succ f =>
        rw [percentDecodeAux, if_neg (by
          intro he; exact uriUnreserved_ne_percent c h he)]
        rw [show rest.flatMap percentEncodeChar = percentEncodeList rest from rfl]
        rw [ih f (by
          have := percentEncodeList_len rest
          simp only [List.length_cons, percentEncodeList] at hf ⊢
          omega) hrest]
        rfl
    · rw [if_neg h] at hf ⊢
      simp only [List.cons_append, List.nil_append] at hf ⊢
      cases fuel with
      | zero => simp at hf
      | succ f =>
        rw [percentDecodeAux, if_pos rfl]
        rw [show readEscByte ('%' :: upperHexChar (c.toNat / 16) ::
              upperHexChar (c.toNat % 16) :: rest.flatMap percentEncodeChar) =
            some (c.toNat / 16 * 16 + c.toNat % 16, rest.flatMap percentEncodeChar) from by
          rw [readEscByte, hexDigitVal_upperHexChar _ (by omega),
              hexDigitVal_upperHexChar _ (by omega)]]
        rw [show c.toNat / 16 * 16 + c.toNat % 16 = c.toNat from by omega]
        change (if c.toNat < 128 then
            Option.map (fun t => Char.ofNat c.toNat :: t)
              (percentDecodeAux f (rest.flatMap percentEncodeChar))
          else _) = some (c :: rest)
        rw [if_pos hc]
        rw [show rest.flatMap percentEncodeChar = percentEncodeList rest from rfl]
        rw [ih f (by
          simp only [List.length_cons, percentEncodeList] at hf ⊢
          omega) hrest]
        rw [Char.ofNat_toNat]
        rfl

theorem percentDecodeList_encode (cs : List Char) (hA : ∀ c ∈ cs, c.toNat < 128) :
    percentDecodeList (percentEncodeList cs) = some cs :=
  percentDecodeAux_encode cs _ (Nat.le_refl _) hA

theorem b64Char_lt_128 : ∀ v, (b64Char v).toNat < 128 := by
  intro v
  rw [b64Char, List.getD]
  cases hg : base64Alphabet.get? v with
  | none => simp [hg]
  | some x =>
    have hm : x ∈ base64Alphabet := List.get?_mem hg
    have : ∀ c ∈ base64Alphabet, c.toNat < 128 := by decide
    simp only [hg, Option.getD_some]
    exact this x hm

theorem base64EncodeBytes_ascii (bs : List Nat) :
    ∀ c ∈ base64EncodeBytes bs, c.toNat < 128 := by
  induction bs using base64EncodeBytes.induct with
  | case1 => intro c hc; simp [base64EncodeBytes] at hc
  | case2 b1 =>
    intro c hc
    rw [base64EncodeBytes] at hc
    simp only [List.mem_cons, List.not_mem_nil, or_false] at hc
    rcases hc with rfl | rfl | rfl | rfl
    · exact b64Char_lt_128 _
    · exact b64Char_lt_128 _
    · decide
    · decide
  | case3 b1 b2 =>
    intro c hc
    rw [base64EncodeBytes] at hc
    simp only [List.mem_cons, List.not_mem_nil, or_false] at hc
    rcases hc with rfl | rfl | rfl | rfl
    · exact b64Char_lt_128 _
    · exact b64Char_lt_128 _
    · exact b64Char_lt_128 _
    · decide
  | case4 b1 b2 b3 rest ih =>
    intro c hc
    rw [base64EncodeBytes] at hc
    simp only [List.mem_cons] at hc
    rcases hc with rfl | rfl | rfl | rfl | hmem
    · exact b64Char_lt_128 _
    · exact b64Char_lt_128 _
    · exact b64Char_lt_128 _
    · exact b64Char_lt_128 _
    · exact ih c hmem


/-! JSON codec: the printer output parses back exactly. String bodies first. -/

theorem skipJsonWs_cons_not (c : Char) (cs : List Char) (h : jsonWs c = false) :
    skipJsonWs (c :: cs) = c :: cs := by
  rw [skipJsonWs, h]
  rfl

theorem hexDigitVal_lowerHexChar : ∀ v, v < 16 → hexDigitVal (lowerHexChar v) = some v := by
  decide

theorem hex4Val_lower (v1 v2 : Nat) (h1 : v1 < 16) (h2 : v2 < 16) :
    hex4Val '0' '0' (lowerHexChar v1) (lowerHexChar v2) = some (v1 * 16 + v2) := by
  rw [hex4Val, hexDigitVal_lowerHexChar v1 h1, hexDigitVal_lowerHexChar v2 h2]
  change some (((0 * 16 + 0) * 16 + v1) * 16 + v2) = some (v1 * 16 + v2)
  rw [show ((0 * 16 + 0) * 16 + v1) * 16 + v2 = v1 * 16 + v2 from by omega]
theorem parseStrBody_quote (X : List Char) : parseStrBody ('"' :: X) = some ([], X) := by
  rw [parseStrBody.eq_def]
  change (if ('"' : Char) = '"' then some (([] : List Char), X) else _) = some ([], X)
  rw [if_pos rfl]

theorem parseStrBody_esc (e ch : Char) (X : List Char) (he : unescapeJson e = some ch)
    (hu : e ≠ 'u') : parseStrBody ('\\' :: e :: X) =
      (parseStrBody X).map (fun p => (ch :: p.1, p.2)) := by
  rw [parseStrBody.eq_def]
  change (if ('\\' : Char) = '"' then _ else _) = _
  rw [if_neg (by decide), if_pos rfl]
  change (if e = 'u' then _ else _) = _
  rw [if_neg hu, he]

theorem parseStrBody_hexEsc (a b c2 d : Char) (n : Nat) (X : List Char)
    (hv : hex4Val a b c2 d = some n) :
    parseStrBody ('\\' :: 'u' :: a :: b :: c2 :: d :: X) =
      (parseStrBody X).map
        (fun p => ((if n.isValidChar then Char.ofNat n else Char.ofNat 65533) :: p.1, p.2)) := by
  rw [parseStrBody.eq_def]
  change (if ('\\' : Char) = '"' then _ else _) = _
  rw [if_neg (by decide), if_pos rfl]
  change (if ('u' : Char) = 'u' then _ else _) = _
  rw [if_pos rfl]
  change (match hex4Val a b c2 d with
    | none => none
    | some n =>
      (parseStrBody X).map
        (fun (p : List Char × List Char) =>
          ((if n.isValidChar then Char.ofNat n else Char.ofNat 65533) :: p.1, p.2))) = _
  rw [hv]

theorem parseStrBody_plain (c : Char) (X : List Char) (h1 : c ≠ '"') (h2 : c ≠ '\\')
    (h3 : ¬ c.toNat < 32) : parseStrBody (c :: X) =
      (parseStrBody X).map (fun p => (c :: p.1, p.2)) := by
  rw [parseStrBody.eq_def]
  change (if c = '"' then _ else _) = _
  rw [if_neg h1, if_neg h2, if_neg h3]

theorem parseStrBody_escape (s : List Char) (rest : List Char) :
    parseStrBody (s.flatMap escapeCharJson ++ '"' :: rest) = some (s, rest) := by
  induction s with
  | nil =>
    rw [List.flatMap_nil, List.nil_append, parseStrBody_quote]
  | cons c cs ih =>
    rw [List.flatMap_cons, List.append_assoc, escapeCharJson]
    by_cases h1 : c = '"'
    · rw [if_pos h1]
      simp only [List.cons_append, List.nil_append]
      rw [parseStrBody_esc '\"' '\"' _ (by decide) (by decide), ih, h1]
      rfl
    · rw [if_neg h1]
      by_cases h2 : c = '\\'
      · rw [if_pos h2]
        simp only [List.cons_append, List.nil_append]
        rw [parseStrBody_esc '\\' '\\' _ (by decide) (by decide), ih, h2]
        rfl
      · rw [if_neg h2]
        by_cases h3 : c = Char.ofNat 8
        · rw [if_pos h3]
          simp only [List.cons_append, List.nil_append]
          rw [parseStrBody_esc 'b' (Char.ofNat 8) _ (by decide) (by decide), ih, h3]
          rfl
        · rw [if_neg h3]
          by_cases h4 : c = Char.ofNat 9
          · rw [if_pos h4]
            simp only [List.cons_append, List.nil_append]
            rw [parseStrBody_esc 't' (Char.ofNat 9) _ (by decide) (by decide), ih, h4]
            rfl
          · rw [if_neg h4]
            by_cases h5 : c = Char.ofNat 10
            · rw [if_pos h5]
              simp only [List.cons_append, List.nil_append]
              rw [parseStrBody_esc 'n' (Char.ofNat 10) _ (by decide) (by decide), ih, h5]
              rfl
            · rw [if_neg h5]
              by_cases h6 : c = Char.ofNat 12
              · rw [if_pos h6]
                simp only [List.cons_append, List.nil_append]
                rw [parseStrBody_esc 'f' (Char.ofNat 12) _ (by decide) (by decide), ih, h6]
                rfl
              · rw [if_neg h6]
                by_cases h7 : c = Char.ofNat 13
                · rw [if_pos h7]
                  simp only [List.cons_append, List.nil_append]
                  rw [parseStrBody_esc 'r' (Char.ofNat 13) _ (by decide) (by decide), ih, h7]
                  rfl
                · rw [if_neg h7]
                  by_cases h8 : c.toNat < 32
                  · rw [if_pos h8]
                    simp only [List.cons_append, List.nil_append]
                    rw [parseStrBody_hexEsc _ _ _ _ _ _
                        (hex4Val_lower _ _ (by omega) (by omega))]
                    rw [show c.toNat / 16 * 16 + c.toNat % 16 = c.toNat from by omega]
                    rw [if_pos (Or.inl (by omega)), Char.ofNat_toNat, ih]
                    rfl
                  · rw [if_neg h8]
                    simp only [List.cons_append, List.nil_append]
                    rw [parseStrBody_plain c _ h1 h2 h8, ih]
                    rfl

/-! Digit runs and integer numbers. -/

theorem natDigits_digits : ∀ n : Nat, ∀ c ∈ natDigits n, isDigitCh c = true := by
  intro n
  induction n using natDigits.induct with
  | case1 n h =>
    intro c hc
    rw [natDigits, if_pos h] at hc
    simp only [List.mem_singleton] at hc
    subst hc
    simp only [isDigitCh, Bool.and_eq_true, decide_eq_true_iff]
    rw [toNat_ofNat_small (by omega)]
    omega
  | case2 n h ih =>
    intro c hc
    rw [natDigits, if_neg h] at hc
    rw [List.mem_append] at hc
    rcases hc with hc | hc
    · exact ih c hc
    · simp only [List.mem_singleton] at hc
      subst hc
      simp only [isDigitCh, Bool.and_eq_true, decide_eq_true_iff]
      rw [toNat_ofNat_small (by omega)]
      omega

theorem natDigits_ne_nil (n : Nat) : natDigits n ≠ [] := by
  rw [natDigits]
  by_cases h : n < 10
  · rw [if_pos h]
    exact List.cons_ne_nil _ _
  · rw [if_neg h]
    intro he
    rcases List.append_eq_nil.mp he with ⟨_, h2⟩
    exact List.cons_ne_nil _ _ h2

theorem takeDigitRun_split (ds rest : List Char) (hd : ∀ d ∈ ds, isDigitCh d = true)
    (hr : numDelim rest = true) : takeDigitRun (ds ++ rest) = (ds, rest) := by
  induction ds with
  | nil =>
    rw [List.nil_append]
    cases rest with
    | nil => rfl
    | cons c cs =>
      rw [numDelim, Bool.not_eq_true'] at hr
      rw [takeDigitRun, hr]
      rfl
  | cons d ds' ih =>
    rw [List.cons_append, takeDigitRun, hd d (by simp)]
    rw [ih (fun x hx => hd x (by simp [hx]))]
    rfl

theorem digitRunVal_natDigits_aux :
    ∀ n : Nat, ∀ a : Nat, (natDigits n).foldl (fun a c => a * 10 + (c.toNat - 48)) a =
      a * 10 ^ (natDigits n).length + n := by
  intro n
  induction n using natDigits.induct with
  | case1 n h =>
    intro a
    rw [natDigits, if_pos h]
    simp only [List.foldl_cons, List.foldl_nil, List.length_singleton]
    rw [toNat_ofNat_small (by omega)]
    omega
  | case2 n h ih =>
    intro a
    rw [natDigits, if_neg h]
    rw [List.foldl_append, List.length_append]
    rw [ih a]
    simp only [List.foldl_cons, List.foldl_nil, List.length_singleton]
    rw [toNat_ofNat_small (by omega)]
    have hpow : (10 : Nat) ^ ((natDigits (n / 10)).length + 1) =
        10 ^ (natDigits (n / 10)).length * 10 := by
      rw [pow_succ]
    rw [hpow]
    have h48 : 48 + n % 10 - 48 = n % 10 := by omega
    rw [h48]
    have : (a * (10 ^ (natDigits (n / 10)).length * 10)) =
        (a * 10 ^ (natDigits (n / 10)).length) * 10 := by ring
    rw [this]
    omega

theorem digitRunVal_natDigits (n : Nat) : digitRunVal (natDigits n) = n := by
  rw [digitRunVal, digitRunVal_natDigits_aux n 0]
  omega

theorem natDigits_head_digit (n : Nat) :
    ∃ c cs, natDigits n = c :: cs ∧ isDigitCh c = true := by
  cases h : natDigits n with
  | nil => exact absurd h (natDigits_ne_nil n)
  | cons c cs =>
    refine ⟨c, cs, rfl, ?_⟩
    exact natDigits_digits n c (by rw [h]; simp)

theorem digit_ne_minus (c : Char) (h : isDigitCh c = true) : c ≠ '-' := by
  intro he
  rw [he] at h
  exact absurd h (by decide)

theorem parseIntNumber_natDigits (m : Nat) (rest : List Char) (hr : numDelim rest = true) :
    parseIntNumber (natDigits m ++ rest) = some ((m : Int), rest) := by
  rcases natDigits_head_digit m with ⟨c, cs, hnd, hdig⟩
  rw [hnd, List.cons_append, parseIntNumber.eq_def]
  change (if c = '-' then _ else _) = _
  rw [if_neg (digit_ne_minus c hdig)]
  rw [show (c :: (cs ++ rest)) = (c :: cs) ++ rest from rfl, ← hnd]
  rw [takeDigitRun_split _ _ (natDigits_digits m) hr]
  change (if natDigits m = [] then none
    else some ((digitRunVal (natDigits m) : Int), rest)) = some ((m : Int), rest)
  rw [if_neg (natDigits_ne_nil m), digitRunVal_natDigits]

theorem parseIntNumber_intChars (i : Int) (rest : List Char) (hr : numDelim rest = true) :
    parseIntNumber (intChars i ++ rest) = some (i, rest) := by
  rw [intChars]
  by_cases h : i < 0
  · rw [if_pos h, List.cons_append, parseIntNumber.eq_def]
    change (if ('-' : Char) = '-' then _ else _) = _
    rw [if_pos rfl]
    rw [takeDigitRun_split _ _ (natDigits_digits i.natAbs) hr]
    change (if natDigits i.natAbs = [] then none
      else some (-(digitRunVal (natDigits i.natAbs) : Int), rest)) = some (i, rest)
    rw [if_neg (natDigits_ne_nil _), digitRunVal_natDigits]
    rw [show (-(i.natAbs : Int)) = i from by omega]
  · rw [if_neg h, parseIntNumber_natDigits _ _ hr]
    rw [show ((i.natAbs : Int)) = i from by omega]


/-! Unfold equations for one step of the fuelled parsers. -/

theorem parseJsonVal_succ (f : Nat) (input : List Char) :
    parseJsonVal (f + 1) input =
      match skipJsonWs input with
      | [] => none
      | c :: r =>
        if c = 'n' then
          match r with
          | 'u' :: 'l' :: 'l' :: r2 => some (.null, r2)
          | _ => none
        else if c = 't' then
          match r with
          | 'r' :: 'u' :: 'e' :: r2 => some (.bool true, r2)
          | _ => none
        else if c = 'f' then
          match r with
          | 'a' :: 'l' :: 's' :: 'e' :: r2 => some (.bool false, r2)
          | _ => none
        else if c = '"' then (parseStrBody r).map (fun p => (.str (String.mk p.1), p.2))
        else if c = '[' then
          match skipJsonWs r with
          | [] => none
          | c2 :: r2 =>
            if c2 = ']' then some (.arr [], r2)
            else (parseJsonElems f (c2 :: r2)).map (fun p => (.arr p.1, p.2))
        else if c = '{' then
          match skipJsonWs r with
          | [] => none
          | c2 :: r2 =>
            if c2 = '}' then some (.obj [], r2)
            else (parseJsonFields f (c2 :: r2)).map (fun p => (.obj (buildObj p.1), p.2))
        else if c = '-' || isDigitCh c then
          (parseIntNumber (c :: r)).map (fun p => (.num p.1, p.2))
        else none := by
  rw [parseJsonVal.eq_def]

theorem parseJsonElems_succ (f : Nat) (input : List Char) :
    parseJsonElems (f + 1) input =
      match parseJsonVal f input with
      | none => none
      | some (v, r) =>
        match skipJsonWs r with
        | [] => none
        | c :: r2 =>
          if c = ',' then (parseJsonElems f r2).map (fun p => (v :: p.1, p.2))
          else if c = ']' then some ([v], r2)
          else none := by
  rw [parseJsonElems.eq_def]

theorem parseJsonFields_succ (f : Nat) (input : List Char) :
    parseJsonFields (f + 1) input =
      match skipJsonWs input with
      | [] => none
      | c :: r =>
        if c = '"' then
          match parseStrBody r with
          | none => none
          | some (kcs, r1) =>
            match skipJsonWs r1 with
            | [] => none
            | c2 :: r2 =>
              if c2 = ':' then
                match parseJsonVal f r2 with
                | none => none
                | some (v, r3) =>
                  match skipJsonWs r3 with
                  | [] => none
                  | c3 :: r4 =>
                    if c3 = ',' then
                      (parseJsonFields f r4).map (fun p => ((String.mk kcs, v) :: p.1, p.2))
                    else if c3 = '}' then some ([(String.mk kcs, v)], r4)
                    else none
              else none
        else none := by
  rw [parseJsonFields.eq_def]

/-! The printer output: first characters and shapes. -/

theorem renderJson_null : renderJson .null = ['n', 'u', 'l', 'l'] := by rw [renderJson]
theorem renderJson_bool_t : renderJson (.bool true) = ['t', 'r', 'u', 'e'] := by rw [renderJson]
theorem renderJson_bool_f : renderJson (.bool false) = ['f', 'a', 'l', 's', 'e'] := by
  rw [renderJson]
theorem renderJson_num (n : Int) : renderJson (.num n) = intChars n := by rw [renderJson]
theorem renderJson_str (s : String) : renderJson (.str s) = renderStr s := by rw [renderJson]
theorem renderJson_arr (es : List Json) :
    renderJson (.arr es) = '[' :: (joinComma (renderElemsL es) ++ [']']) := by rw [renderJson]
theorem renderJson_obj (fs : List (String × Json)) :
    renderJson (.obj fs) = '{' :: (joinComma (renderFieldsL fs) ++ ['}']) := by rw [renderJson]

theorem digit_facts (c : Char) (h : isDigitCh c = true) :
    jsonWs c = false ∧ c ≠ ']' ∧ c ≠ '}' ∧ c ≠ ',' := by
  simp only [isDigitCh, Bool.and_eq_true, decide_eq_true_iff] at h
  refine ⟨?_, ?_, ?_, ?_⟩
  · simp only [jsonWs, Bool.or_eq_false_iff, decide_eq_false_iff_not]
    refine ⟨⟨⟨?_, ?_⟩, ?_⟩, ?_⟩ <;> (intro he; rw [he] at h; revert h; decide)
  · intro he; rw [he] at h; revert h; decide
  · intro he; rw [he] at h; revert h; decide
  · intro he; rw [he] at h; revert h; decide

theorem renderJson_head (v : Json) :
    ∃ c cs, renderJson v = c :: cs ∧ jsonWs c = false ∧ c ≠ ']' ∧ c ≠ '}' ∧ c ≠ ',' := by
  cases v with
  | undef => exact ⟨'n', _, by rw [renderJson], by decide, by decide, by decide, by decide⟩
  | null => exact ⟨'n', _, renderJson_null, by decide, by decide, by decide, by decide⟩
  | bool b =>
    cases b with
    | true => exact ⟨'t', _, renderJson_bool_t, by decide, by decide, by decide, by decide⟩
    | false => exact ⟨'f', _, renderJson_bool_f, by decide, by decide, by decide, by decide⟩
  | str s => exact ⟨'"', _, by rw [renderJson_str, renderStr], by decide, by decide, by decide,
      by decide⟩
  | arr es => exact ⟨'[', _, renderJson_arr es, by decide, by decide, by decide, by decide⟩
  | obj fs => exact ⟨'{', _, renderJson_obj fs, by decide, by decide, by decide, by decide⟩
  | num n =>
    rw [renderJson_num, intChars]
    by_cases h : n < 0
    · exact ⟨'-', _, by rw [if_pos h], by decide, by decide, by decide, by decide⟩
    · rw [if_neg h]
      rcases natDigits_head_digit n.natAbs with ⟨c, cs, hnd, hdig⟩
      rcases digit_facts c hdig with ⟨hw, h1, h2, h3⟩
      exact ⟨c, cs, hnd, hw, h1, h2, h3⟩

/-! Object assembly: with distinct keys, `buildObj` is the identity. -/

theorem hasKey_cons_false {k' : String} {w : Json} {rest : JsFields} {k : String}
    (h : hasKey ((k', w) :: rest) k = false) : k' ≠ k ∧ hasKey rest k = false := by
  rw [hasKey, getKey] at h
  by_cases he : k' = k
  · rw [if_pos he] at h
    simp at h
  · rw [if_neg he] at h
    exact ⟨he, h⟩

theorem setKey_fresh (acc : JsFields) (k : String) (v : Json) (h : hasKey acc k = false) :
    setKey acc k v = acc ++ [(k, v)] := by
  induction acc with
  | nil => rfl
  | cons p rest ih =>
    match p with
    | (k', w) =>
      rcases hasKey_cons_false h with ⟨hne, hr⟩
      rw [setKey, if_neg hne, ih hr]
      rfl

theorem hasKey_append (a b : JsFields) (k : String) :
    hasKey (a ++ b) k = (hasKey a k || hasKey b k) := by
  induction a with
  | nil => simp [hasKey, getKey]
  | cons p rest ih =>
    rcases p with ⟨k', w⟩
    by_cases he : k' = k
    · rw [List.cons_append]
      rw [show hasKey ((k', w) :: (rest ++ b)) k = true from by
        rw [hasKey, getKey, if_pos he]; rfl]
      rw [show hasKey ((k', w) :: rest) k = true from by
        rw [hasKey, getKey, if_pos he]; rfl]
      rfl
    · rw [List.cons_append]
      rw [show hasKey ((k', w) :: (rest ++ b)) k = hasKey (rest ++ b) k from by
        rw [hasKey, getKey, if_neg he]; rfl]
      rw [show hasKey ((k', w) :: rest) k = hasKey rest k from by
        rw [hasKey, getKey, if_neg he]; rfl]
      exact ih

theorem hasKey_false_keys {fs : JsFields} {k : String} (h : hasKey fs k = false) :
    ∀ p ∈ fs, p.1 ≠ k := by
  intro p hp he
  induction fs with
  | nil => simp at hp
  | cons q rest ih =>
    rcases hq : q with ⟨k', w⟩
    rw [hq] at h hp
    rcases hasKey_cons_false h with ⟨hne, hr⟩
    rcases List.mem_cons.mp hp with rfl | hmem
    · exact hne (by rw [← he])
    · exact ih hr hmem

theorem buildObj_aux (ps : List (String × Json)) :
    ∀ acc : JsFields, (∀ p ∈ ps, hasKey acc p.1 = false) → jsonWFFields ps = true →
      List.foldl (fun acc p => setKey acc p.1 p.2) acc ps = acc ++ ps := by
  induction ps with
  | nil =>
    intro acc _ _
    simp
  | cons q rest ih =>
    intro acc hfresh hwf
    rcases hq : q with ⟨k, v⟩
    subst hq
    rw [jsonWFFields] at hwf
    simp only [Bool.and_eq_true] at hwf
    rcases hwf with ⟨⟨hv, hnk⟩, hrest⟩
    rw [List.foldl_cons]
    rw [show setKey acc (k, v).1 (k, v).2 = acc ++ [(k, v)] from
      setKey_fresh acc k v (hfresh (k, v) (by simp))]
    rw [ih (acc ++ [(k, v)]) ?fresh hrest, List.append_assoc]
    rfl
    case fresh =>
      intro p hp
      rw [hasKey_append]
      rw [hfresh p (by simp [hp])]
      have hnk2 : hasKey rest k = false := by rwa [Bool.not_eq_true'] at hnk
      have hk : p.1 ≠ k := hasKey_false_keys hnk2 p hp
      rw [show hasKey [(k, v)] p.1 = false from by
        rw [hasKey, getKey, if_neg (fun he => hk he.symm)]
        rfl]
      rfl

theorem buildObj_wf (fs : List (String × Json)) (h : jsonWFFields fs = true) :
    buildObj fs = fs := by
  rw [buildObj, buildObj_aux fs [] (fun p _ => rfl) h, List.nil_append]


/-! The render-parse round trip, by induction on fuel, and the full
decoder-inverts-encoder result. -/

theorem elems_step (f : Nat) (e : Json) (after : List Char)
    (hval : parseJsonVal f (renderJson e ++ after) = some (e, after)) :
    parseJsonElems (f + 1) (renderJson e ++ after) =
      match skipJsonWs after with
      | [] => none
      | c :: r2 =>
        if c = ',' then (parseJsonElems f r2).map (fun p => (e :: p.1, p.2))
        else if c = ']' then some ([e], r2)
        else none := by
  rw [parseJsonElems_succ, hval]
theorem fields_member_reduce (f : Nat) (k : String) (v : Json) (after : List Char)
    (hval : parseJsonVal f (renderJson v ++ after) = some (v, after)) :
    parseJsonFields (f + 1) ((renderStr k ++ ':' :: renderJson v) ++ after) =
      match skipJsonWs after with
      | [] => none
      | c3 :: r4 =>
        if c3 = ',' then (parseJsonFields f r4).map (fun p => ((k, v) :: p.1, p.2))
        else if c3 = '}' then some ([(k, v)], r4)
        else none := by
  rw [parseJsonFields_succ, renderStr]
  simp only [List.cons_append, List.append_assoc, List.singleton_append]
  rw [skipJsonWs_cons_not _ _ (by decide)]
  change (if ('"' : Char) = '"' then
      (match parseStrBody (k.data.flatMap escapeCharJson ++ '"' :: (':' :: (renderJson v ++ after))) with
       | none => none
       | some (kcs, r1) =>
         match skipJsonWs r1 with
         | [] => none
         | c2 :: r2 =>
           if c2 = ':' then
             match parseJsonVal f r2 with
             | none => none
             | some (v2, r3) =>
               match skipJsonWs r3 with
               | [] => none
               | c3 :: r4 =>
                 if c3 = ',' then
                   (parseJsonFields f r4).map (fun (p : List (String × Json) × List Char) => ((String.mk kcs, v2) :: p.1, p.2))
                 else if c3 = '}' then some ([(String.mk kcs, v2)], r4)
                 else none
           else none)
    else none) = _
  rw [if_pos rfl, parseStrBody_escape]
  change (match skipJsonWs (':' :: (renderJson v ++ after)) with
    | [] => none
    | c2 :: r2 =>
      if c2 = ':' then
        match parseJsonVal f r2 with
        | none => none
        | some (v2, r3) =>
          match skipJsonWs r3 with
          | [] => none
          | c3 :: r4 =>
            if c3 = ',' then
              (parseJsonFields f r4).map (fun (p : List (String × Json) × List Char) => ((String.mk k.data, v2) :: p.1, p.2))
            else if c3 = '}' then some ([(String.mk k.data, v2)], r4)
            else none
      else none) = _
  rw [skipJsonWs_cons_not _ _ (by decide)]
  change (if (':' : Char) = ':' then
      (match parseJsonVal f (renderJson v ++ after) with
       | none => none
       | some (v2, r3) =>
         match skipJsonWs r3 with
         | [] => none
         | c3 :: r4 =>
           if c3 = ',' then
             (parseJsonFields f r4).map (fun (p : List (String × Json) × List Char) => ((String.mk k.data, v2) :: p.1, p.2))
           else if c3 = '}' then some ([(String.mk k.data, v2)], r4)
           else none)
    else none) = _
  rw [if_pos rfl, hval]
theorem numDelim_cons (c : Char) (r : List Char) : numDelim (c :: r) = !isDigitCh c := by
  rw [numDelim]

theorem digit_not_heads (c : Char) (h : isDigitCh c = true) :
    c ≠ 'n' ∧ c ≠ 't' ∧ c ≠ 'f' ∧ c ≠ '"' ∧ c ≠ '[' ∧ c ≠ '{' := by
  simp only [isDigitCh, Bool.and_eq_true, decide_eq_true_iff] at h
  refine ⟨?_, ?_, ?_, ?_, ?_, ?_⟩ <;> (intro he; rw [he] at h; revert h; decide)

theorem jsonWF_ne_undef (v : Json) (h : jsonWF v = true) : v ≠ .undef := by
  intro he
  rw [he, jsonWF] at h
  exact Bool.noConfusion h

theorem join_piece_head (x : List Char) (c : Char) (cs : List Char) (hx : x = c :: cs)
    (ps : List (List Char)) : ∃ t, joinComma (x :: ps) = c :: t := by
  cases ps with
  | nil => exact ⟨cs, by rw [joinComma, hx]⟩
  | cons y r => exact ⟨cs ++ ',' :: joinComma (y :: r), by rw [joinComma, hx, List.cons_append]⟩

theorem renderFieldsL_cons_wf (k : String) (v : Json) (fs' : List (String × Json))
    (hv : v ≠ .undef) : renderFieldsL ((k, v) :: fs') =
      (renderStr k ++ ':' :: renderJson v) :: renderFieldsL fs' := by
  rw [renderFieldsL, if_neg hv]

theorem parse_render (fuel : Nat) :
    (∀ v rest, jsonWF v = true → numDelim rest = true →
      (renderJson v).length ≤ fuel →
      parseJsonVal fuel (renderJson v ++ rest) = some (v, rest)) ∧
    (∀ es rest, jsonWFList es = true → es ≠ [] →
      (joinComma (renderElemsL es)).length < fuel →
      parseJsonElems fuel (joinComma (renderElemsL es) ++ ']' :: rest) = some (es, rest)) ∧
    (∀ fs rest, jsonWFFields fs = true → fs ≠ [] →
      (joinComma (renderFieldsL fs)).length < fuel →
      parseJsonFields fuel (joinComma (renderFieldsL fs) ++ '}' :: rest) = some (fs, rest)) := by
  induction fuel with
  | zero =>
    refine ⟨?_, ?_, ?_⟩
    · intro v rest _ _ hlen
      rcases renderJson_head v with ⟨c, cs, hre, -, -, -, -⟩
      rw [hre] at hlen
      simp at hlen
    · intro es rest _ _ hlen
      omega
    · intro fs rest _ _ hlen
      omega
  | succ f ih =>
    refine ⟨?_, ?_, ?_⟩
    · intro v rest hwf hnd hlen
      cases v with
      | undef =>
        rw [jsonWF] at hwf
        exact Bool.noConfusion hwf
      | null =>
        rw [renderJson_null, parseJsonVal_succ]
        simp only [List.cons_append, List.nil_append]
        rw [skipJsonWs_cons_not _ _ (by decide)]
        rfl
      | bool b =>
        cases b with
        | true =>
          rw [renderJson_bool_t, parseJsonVal_succ]
          simp only [List.cons_append, List.nil_append]
          rw [skipJsonWs_cons_not _ _ (by decide)]
          rfl
        | false =>
          rw [renderJson_bool_f, parseJsonVal_succ]
          simp only [List.cons_append, List.nil_append]
          rw [skipJsonWs_cons_not _ _ (by decide)]
          rfl
      | str s =>
        rw [renderJson_str, renderStr, parseJsonVal_succ]
        simp only [List.cons_append, List.append_assoc, List.nil_append]
        rw [skipJsonWs_cons_not _ _ (by decide)]
        change (parseStrBody (s.data.flatMap escapeCharJson ++ '"' :: rest)).map
          (fun p => (Json.str (String.mk p.1), p.2)) = some (.str s, rest)
        rw [parseStrBody_escape]
        rfl
      | num n =>
        rw [renderJson_num, parseJsonVal_succ]
        by_cases h : n < 0
        · rw [intChars, if_pos h, List.cons_append,
            skipJsonWs_cons_not _ _ (by decide)]
          change (parseIntNumber ('-' :: (natDigits n.natAbs ++ rest))).map
            (fun p => (Json.num p.1, p.2)) = some (.num n, rest)
          rw [show ('-' :: (natDigits n.natAbs ++ rest)) = intChars n ++ rest from by
            rw [intChars, if_pos h, List.cons_append]]
          rw [parseIntNumber_intChars n rest hnd]
          rfl
        · rcases natDigits_head_digit n.natAbs with ⟨c, cs, hnd2, hdig⟩
          rcases digit_facts c hdig with ⟨hws, -, -, -⟩
          rcases digit_not_heads c hdig with ⟨hc1, hc2, hc3, hc4, hc5, hc6⟩
          rw [intChars, if_neg h, hnd2, List.cons_append, skipJsonWs_cons_not _ _ hws]
          change (if c = 'n' then _ else _) = _
          rw [if_neg hc1, if_neg hc2, if_neg hc3, if_neg hc4, if_neg hc5, if_neg hc6,
            if_pos (by simp [hdig])]
          change (parseIntNumber (c :: (cs ++ rest))).map
            (fun p => (Json.num p.1, p.2)) = some (.num n, rest)
          rw [show (c :: (cs ++ rest)) = intChars n ++ rest from by
            rw [intChars, if_neg h, hnd2, List.cons_append]]
          rw [parseIntNumber_intChars n rest hnd]
          rfl
      | arr es =>
        rw [renderJson_arr] at hlen
        rw [renderJson_arr, parseJsonVal_succ]
        simp only [List.cons_append, List.append_assoc, List.singleton_append]
        rw [skipJsonWs_cons_not _ _ (by decide)]
        rw [jsonWF] at hwf
        simp only [List.length_cons, List.length_append, List.length_singleton] at hlen
        change (if ('[' : Char) = 'n' then _ else _) = _
        rw [if_neg (by decide), if_neg (by decide), if_neg (by decide), if_neg (by decide),
          if_pos rfl]
        cases es with
        | nil =>
          rw [show renderElemsL [] = [] from by rw [renderElemsL]]
          rw [show joinComma [] = [] from by rw [joinComma]]
          rw [List.nil_append, skipJsonWs_cons_not _ _ (by decide)]
          change (if (']' : Char) = ']' then some (Json.arr [], rest) else _) = _
          rw [if_pos rfl]
        | cons e es2 =>
          rcases renderJson_head e with ⟨c0, cs0, hre, hws0, hbr0, -, -⟩
          rcases join_piece_head (renderJson e) c0 cs0 hre (renderElemsL es2) with ⟨t, hjoin⟩
          rw [show renderElemsL (e :: es2) = renderJson e :: renderElemsL es2 from by
            rw [renderElemsL]] at hlen ⊢
          rw [hjoin] at hlen ⊢
          rw [List.cons_append, skipJsonWs_cons_not _ _ hws0]
          change (if c0 = ']' then _ else _) = _
          rw [if_neg hbr0]
          change (parseJsonElems f (c0 :: (t ++ ']' :: rest))).map
            (fun (p : List Json × List Char) => (Json.arr p.1, p.2)) =
            some (.arr (e :: es2), rest)
          rw [show c0 :: (t ++ ']' :: rest) = (c0 :: t) ++ ']' :: rest from rfl, ← hjoin]
          rw [show renderJson e :: renderElemsL es2 = renderElemsL (e :: es2) from by
            rw [renderElemsL]]
          rw [ih.2.1 (e :: es2) rest hwf (List.cons_ne_nil e es2) (by
            rw [show renderElemsL (e :: es2) = renderJson e :: renderElemsL es2 from by
              rw [renderElemsL], hjoin]
            simp only [List.length_cons] at hlen ⊢
            omega)]
          rfl
      | obj fs =>
        rw [renderJson_obj] at hlen
        rw [renderJson_obj, parseJsonVal_succ]
        simp only [List.cons_append, List.append_assoc, List.singleton_append]
        rw [skipJsonWs_cons_not _ _ (by decide)]
        rw [jsonWF] at hwf
        simp only [List.length_cons, List.length_append, List.length_singleton] at hlen
        change (if ('\x7b' : Char) = 'n' then _ else _) = _
        rw [if_neg (by decide), if_neg (by decide), if_neg (by decide), if_neg (by decide),
          if_neg (by decide), if_pos rfl]
        cases fs with
        | nil =>
          rw [show renderFieldsL [] = [] from by rw [renderFieldsL]]
          rw [show joinComma [] = [] from by rw [joinComma]]
          rw [List.nil_append, skipJsonWs_cons_not _ _ (by decide)]
          change (if ('\x7d' : Char) = '\x7d' then some (Json.obj [], rest) else _) = _
          rw [if_pos rfl]
        | cons p fs2 =>
          rcases p with ⟨k, v⟩
          have hvu : v ≠ .undef := by
            rw [jsonWFFields] at hwf
            simp only [Bool.and_eq_true] at hwf
            exact jsonWF_ne_undef v hwf.1.1
          rw [renderFieldsL_cons_wf k v fs2 hvu] at hlen ⊢
          have hpc : renderStr k ++ ':' :: renderJson v =
              '"' :: ((k.data.flatMap escapeCharJson ++ ['"']) ++ ':' :: renderJson v) := by
            rw [renderStr, List.cons_append]
          rcases join_piece_head _ _ _ hpc (renderFieldsL fs2) with ⟨t, hjoin⟩
          rw [hjoin] at hlen ⊢
          rw [List.cons_append, skipJsonWs_cons_not _ _ (by decide)]
          change (if ('"' : Char) = '\x7d' then _ else _) = _
          rw [if_neg (by decide)]
          change (parseJsonFields f ('"' :: (t ++ '\x7d' :: rest))).map
            (fun (p : List (String × Json) × List Char) => (Json.obj (buildObj p.1), p.2)) =
            some (.obj ((k, v) :: fs2), rest)
          rw [show ('"' : Char) :: (t ++ '\x7d' :: rest) = ('"' :: t) ++ '\x7d' :: rest from rfl,
            ← hjoin]
          rw [← renderFieldsL_cons_wf k v fs2 hvu]
          rw [ih.2.2 ((k, v) :: fs2) rest hwf (List.cons_ne_nil _ _) (by
            rw [renderFieldsL_cons_wf k v fs2 hvu, hjoin]
            simp only [List.length_cons] at hlen ⊢
            omega)]
          change some (Json.obj (buildObj ((k, v) :: fs2)), rest) =
            some (Json.obj ((k, v) :: fs2), rest)
          rw [buildObj_wf _ hwf]
    · intro es rest hwf hne hlen
      cases es with
      | nil => exact absurd rfl hne
      | cons e es2 =>
        rw [show jsonWFList (e :: es2) = (jsonWF e && jsonWFList es2) from by rw [jsonWFList],
          Bool.and_eq_true] at hwf
        rcases hwf with ⟨hwe, hwes⟩
        cases es2 with
        | nil =>
          rw [show renderElemsL [e] = [renderJson e] from by rw [renderElemsL, renderElemsL]]
            at hlen ⊢
          rw [show joinComma [renderJson e] = renderJson e from by rw [joinComma]] at hlen ⊢
          rw [elems_step f e (']' :: rest)
            (ih.1 e (']' :: rest) hwe (by rw [numDelim_cons]; decide) (by omega))]
          rw [skipJsonWs_cons_not _ _ (by decide)]
          change (if (']' : Char) = ',' then _ else _) = _
          rw [if_neg (by decide), if_pos rfl]
        | cons e2 es3 =>
          rw [show renderElemsL (e :: e2 :: es3) =
              renderJson e :: renderJson e2 :: renderElemsL es3 from by
            rw [renderElemsL, renderElemsL]] at hlen ⊢
          rw [show joinComma (renderJson e :: renderJson e2 :: renderElemsL es3) =
              renderJson e ++ ',' :: joinComma (renderJson e2 :: renderElemsL es3) from by
            rw [joinComma]] at hlen ⊢
          rw [List.append_assoc, List.cons_append]
          simp only [List.length_append, List.length_cons] at hlen
          rw [elems_step f e (',' :: (joinComma (renderJson e2 :: renderElemsL es3) ++
              ']' :: rest))
            (ih.1 e _ hwe (by rw [numDelim_cons]; decide) (by omega))]
          rw [skipJsonWs_cons_not _ _ (by decide)]
          change (if (',' : Char) = ',' then _ else _) = _
          rw [if_pos rfl]
          change (parseJsonElems f (joinComma (renderJson e2 :: renderElemsL es3) ++
            ']' :: rest)).map (fun (p : List Json × List Char) => (e :: p.1, p.2)) =
            some (e :: e2 :: es3, rest)
          rw [show renderJson e2 :: renderElemsL es3 = renderElemsL (e2 :: es3) from by
            rw [renderElemsL]]
          rw [ih.2.1 (e2 :: es3) rest hwes (List.cons_ne_nil _ _) (by
            rw [show renderElemsL (e2 :: es3) = renderJson e2 :: renderElemsL es3 from by
              rw [renderElemsL]]
            omega)]
          rfl
    · intro fs rest hwf hne hlen
      cases fs with
      | nil => exact absurd rfl hne
      | cons p fs2 =>
        rcases p with ⟨k, v⟩
        rw [show jsonWFFields ((k, v) :: fs2) =
            (jsonWF v && !(hasKey fs2 k) && jsonWFFields fs2) from by rw [jsonWFFields]] at hwf
        simp only [Bool.and_eq_true] at hwf
        rcases hwf with ⟨⟨hwv, -⟩, hwfs⟩
        have hvu : v ≠ .undef := jsonWF_ne_undef v hwv
        rw [renderFieldsL_cons_wf k v fs2 hvu] at hlen ⊢
        cases hrf : renderFieldsL fs2 with
        | nil =>
          rw [hrf] at hlen
          rw [show joinComma [renderStr k ++ ':' :: renderJson v] =
              renderStr k ++ ':' :: renderJson v from by rw [joinComma]] at hlen ⊢
          simp only [List.length_append, List.length_cons] at hlen
          rw [fields_member_reduce f k v ('\x7d' :: rest)
            (ih.1 v _ hwv (by rw [numDelim_cons]; decide) (by omega))]
          rw [skipJsonWs_cons_not _ _ (by decide)]
          change (if ('\x7d' : Char) = ',' then _ else _) = _
          rw [if_neg (by decide), if_pos rfl]
          have hfs2 : fs2 = [] := by
            cases fs2 with
            | nil => rfl
            | cons q qs =>
              rcases q with ⟨k2, v2⟩
              have hvu2 : v2 ≠ .undef := by
                rw [show jsonWFFields ((k2, v2) :: qs) =
                    (jsonWF v2 && !(hasKey qs k2) && jsonWFFields qs) from by
                  rw [jsonWFFields]] at hwfs
                simp only [Bool.and_eq_true] at hwfs
                exact jsonWF_ne_undef v2 hwfs.1.1
              rw [renderFieldsL_cons_wf k2 v2 qs hvu2] at hrf
              exact absurd hrf (List.cons_ne_nil _ _)
          rw [hfs2]
        | cons piece ps =>
          rw [hrf] at hlen
          rw [show joinComma ((renderStr k ++ ':' :: renderJson v) :: piece :: ps) =
              (renderStr k ++ ':' :: renderJson v) ++ ',' :: joinComma (piece :: ps) from by
            rw [joinComma]] at hlen ⊢
          rw [List.append_assoc, List.cons_append]
          simp only [List.length_append, List.length_cons] at hlen
          rw [fields_member_reduce f k v
            (',' :: (joinComma (piece :: ps) ++ '\x7d' :: rest))
            (ih.1 v _ hwv (by rw [numDelim_cons]; decide) (by omega))]
          rw [skipJsonWs_cons_not _ _ (by decide)]
          change (if (',' : Char) = ',' then _ else _) = _
          rw [if_pos rfl]
          change (parseJsonFields f (joinComma (piece :: ps) ++ '\x7d' :: rest)).map
            (fun (p : List (String × Json) × List Char) => ((k, v) :: p.1, p.2)) =
            some ((k, v) :: fs2, rest)
          have hne2 : fs2 ≠ [] := by
            intro he
            rw [he] at hrf
            rw [show renderFieldsL ([] : List (String × Json)) = [] from by
              rw [renderFieldsL]] at hrf
            exact List.cons_ne_nil _ _ hrf.symm
          rw [← hrf]
          rw [ih.2.2 fs2 rest hwfs hne2 (by rw [hrf]; omega)]
          rfl

theorem jsonParse_render (v : Json) (h : jsonWF v = true) :
    jsonParse (renderJson v) = some v := by
  have hp := (parse_render ((renderJson v).length + 1)).1 v [] h rfl (by omega)
  rw [List.append_nil] at hp
  rw [jsonParse, hp]
  rfl

theorem utf8EncodeList_lt_256 (cs : List Char) : ∀ b ∈ utf8EncodeList cs, b < 256 := by
  intro b hb
  rw [utf8EncodeList] at hb
  rcases List.mem_flatMap.mp hb with ⟨c, -, hbc⟩
  exact utf8EncodeChar_lt_256 c b hbc

theorem decode_encode (fs : JsFields) (t : Option RegistrationType)
    (h : jsonWF (.obj fs) = true) :
    decodeDataParam (encodeDataParam fs) t = .success (transformDataKeys (.obj fs) t) := by
  rw [decodeDataParam, encodeDataParam]
  rw [show (String.mk (percentEncodeList (base64EncodeBytes
      (utf8EncodeList (renderJson (.obj fs)))))).data =
    percentEncodeList (base64EncodeBytes (utf8EncodeList (renderJson (.obj fs)))) from rfl]
  rw [percentDecodeList_encode _ (base64EncodeBytes_ascii _)]
  change (match base64Decode (base64EncodeBytes
      (utf8EncodeList (renderJson (Json.obj fs)))) with
    | none => ParseResult.failure (decodeError "invalid base64 payload")
    | some bytes =>
      match utf8Decode bytes with
      | none => ParseResult.failure (decodeError "invalid UTF-8 payload")
      | some chars =>
        match jsonParse chars with
        | none => ParseResult.failure (decodeError "unexpected token in JSON")
        | some jsonData => ParseResult.success (transformDataKeys jsonData t)) = _
  rw [base64Decode_encode _ (utf8EncodeList_lt_256 _)]
  change (match utf8Decode (utf8EncodeList (renderJson (Json.obj fs))) with
    | none => ParseResult.failure (decodeError "invalid UTF-8 payload")
    | some chars =>
      match jsonParse chars with
      | none => ParseResult.failure (decodeError "unexpected token in JSON")
      | some jsonData => ParseResult.success (transformDataKeys jsonData t)) = _
  rw [utf8Decode_encode]
  change (match jsonParse (renderJson (Json.obj fs)) with
    | none => ParseResult.failure (decodeError "unexpected token in JSON")
    | some jsonData => ParseResult.success (transformDataKeys jsonData t)) = _
  rw [jsonParse_render _ h]

/-- C4 (corrected): the spec claims `decode(encode(o)) == o` exactly, but
`decodeDataParam` applies `transformDataKeys` after the three decode
steps, so the decoder returns the key-transformed object, not `o` itself.
Amended round trip: for every well-formed object (no `undefined` values,
no duplicate keys), encoding with the link generator and decoding returns
`success` of exactly `transformDataKeys o registrationType`. -/
theorem C4_roundtrip_transformed (fs : JsFields) (t : Option RegistrationType)
    (h : jsonWF (.obj fs) = true) :
    decodeDataParam (encodeDataParam fs) t = .success (transformDataKeys (.obj fs) t) :=
  decode_encode fs t h

/-- Witness for C4 at a concrete payload. -/
theorem C4_roundtrip_transformed_witness :
    jsonWF (.obj [("username", .str "bob")]) = true ∧
    decodeDataParam (encodeDataParam [("username", .str "bob")]) none =
      .success (transformDataKeys (.obj [("username", .str "bob")]) none) :=
  ⟨by decide, C4_roundtrip_transformed [("username", .str "bob")] none (by decide)⟩

/-- Counterexample to C4 as written: a key with an upper-case initial is
lower-cased by the decoder, so `decode(encode(o))` is not `o`. -/
theorem C4_counterexample :
    decodeDataParam (encodeDataParam [("Name", .str "x")]) none ≠
      .success (.obj [("Name", .str "x")]) := by
  rw [decode_encode [("Name", .str "x")] none (by decide)]
  decide

end OnixRegister
